import Mathlib

/-!
Verification of the ingestion core of the Personal-knowledge-engine
repository.

The development shallowly embeds, in Lean, the data model and operations of:

  * `pke/ingestion/tag_resolution.py` (pure tag helpers),
  * `pke/ingestion/orchestrator.py` (`ingest_notes`, both the dry-run and
    the real execution path, and the `IngestionReport` accumulator),
  * `tests/fixtures/mock_supabase.py` (`MockSupabaseClient`, the recording
    in-memory store used by the repository as the real-path backing store
    in its end-to-end tests),
  * `pke/supabase_client.py` (`SupabaseClient`, the real backend wrapper).

Python dictionaries are embedded as association lists that preserve
insertion order (`setKey` mirrors `d[k] = v`: it updates an existing key in
place and appends a fresh key at the end, exactly like a Python dict).
Python sets of strings are embedded as insertion-ordered duplicate-free
lists; no proved theorem depends on the iteration order of a Python set.
Exceptions are embedded with `Except String`; a raised exception is an
`Except.error` carrying the message.  Embedding vectors are never inspected
by any property of interest, so they are embedded symbolically: the
deterministic provider maps a body string to a vector value identified by
that string.
-/

deriving instance DecidableEq for Except

/-- Association-list membership of a key.  Mirrors Python `k in d`. -/
def keyMem (m : List (String × α)) (k : String) : Bool :=
  match m with
  | [] => false
  | (k', _) :: rest => if k' = k then true else keyMem rest k

/-- Association-list lookup.  Mirrors Python `d.get(k)` (None when absent). -/
def keyLookup (m : List (String × α)) (k : String) : Option α :=
  match m with
  | [] => none
  | (k', v) :: rest => if k' = k then some v else keyLookup rest k

/-- Python dict assignment `d[k] = v`: update an existing key in place
(keeping its original insertion position) or append a new key. -/
def setKey (m : List (String × α)) (k : String) (v : α) : List (String × α) :=
  match m with
  | [] => [(k, v)]
  | (k', v') :: rest => if k' = k then (k, v) :: rest else (k', v') :: setKey rest k v

/-- The keys of an association list, in insertion order. -/
def keysOf (m : List (String × α)) : List String := m.map (·.1)

/-- Python `str.strip()` on tag names: drop leading and trailing
whitespace.  Implemented over the character list so that proofs can
evaluate it; agrees with `String.trim` on every input. -/
def pyStrip (s : String) : String :=
  ⟨((s.data.dropWhile Char.isWhitespace).reverse.dropWhile Char.isWhitespace).reverse⟩

/-- Python `name.replace(" ", "_")` for the mock's deterministic tag ids:
the pattern is a single character, so this is a character map. -/
def pyUnderscore (s : String) : String :=
  ⟨s.data.map (fun c => if c = ' ' then '_' else c)⟩

/-- Python `list(set(tags))` as used by `SupabaseClient.upsert_tags`:
deduplication.  A Python set iterates in an unspecified order; the
embedding fixes the first-occurrence order, and no proved property depends
on the order. -/
def pyDedup (tags : List String) : List String :=
  tags.foldl (fun acc t => if t ∈ acc then acc else acc ++ [t]) []

/-- Opaque metadata values carried verbatim through the pipeline
(`ParsedNote.metadata` is an opaque key-value map per the data model). -/
inductive MetaVal where
  | none
  | str (s : String)
deriving DecidableEq

/-- A symbolic embedding vector: the deterministic provider is a pure
function of the note body, and no pipeline property inspects the vector's
numeric contents, so the vector is identified by the body it was computed
from. -/
structure Emb where
  src : String
deriving DecidableEq

/-- A parsed Joplin note as consumed by `ingest_notes`
(`parsed_notes` entries): id, title, body, optional notebook label, raw tag
list and opaque metadata.  The Python values are dictionaries; the claims
under verification only exercise notes that carry all of these keys, with
`title`/`metadata` defaulting to `""`/`{}` exactly as `note.get("title", "")`
and `note.get("metadata", {})` do. -/
structure ParsedNote where
  id : String
  title : String
  body : String
  notebook : Option String
  tags : List String
  metadata : List (String × MetaVal)
deriving DecidableEq

/-- `IngestionReport` (`pke/ingestion/orchestrator.py`): the counters and
the ordered failure list `{id, error}`. -/
structure Report where
  notes_processed : Nat
  notes_inserted : Nat
  notes_updated : Nat
  notes_skipped : Nat
  tags_inserted : Nat
  relationships_created : Nat
  failures : List (String × String)
deriving DecidableEq

/-- A fresh `IngestionReport()` — all counters zero, no failures. -/
def Report.init : Report :=
  { notes_processed := 0, notes_inserted := 0, notes_updated := 0,
    notes_skipped := 0, tags_inserted := 0, relationships_created := 0,
    failures := [] }

/-- The keyword arguments of one `upsert_note_with_embedding` call as issued
by the orchestrator. -/
structure NoteArgs where
  id : String
  title : String
  body : String
  metadata : List (String × MetaVal)
  notebook_id : Option String
  embedding : Emb
deriving DecidableEq

/-- The dynamically-typed value returned by a client's
`upsert_note_with_embedding`: either an insert/update status string (the
Option B1 contract implemented by `MockSupabaseClient`) or something else
(the superseded record-returning contract of the real `SupabaseClient`).
The orchestrator compares the value against the two status strings and
falls back defensively otherwise. -/
inductive UpsertResult where
  | statusStr (s : String)
  | otherVal
deriving DecidableEq

-- ---------------------------------------------------------------------------
-- tag_resolution.py
-- ---------------------------------------------------------------------------

/-- The body of the per-tag loop of `extract_all_tags`: skip falsy tags,
strip whitespace, drop names that are empty after stripping, deduplicate. -/
def addTag (acc : List String) (tag : String) : List String :=
  if tag = "" then acc
  else
    let normalized := pyStrip tag
    if normalized = "" then acc
    else if normalized ∈ acc then acc
    else acc ++ [normalized]

/-- `extract_all_tags` (`pke/ingestion/tag_resolution.py`): the set of all
unique normalized tag names across the batch.  The Python set is embedded
as a duplicate-free list in first-seen order. -/
def extract_all_tags (parsed_notes : List ParsedNote) : List String :=
  parsed_notes.foldl (fun acc note => note.tags.foldl addTag acc) []

/-- `map_note_tags_to_ids` (`pke/ingestion/tag_resolution.py`): per note,
normalize its raw tags, keep those present in `tag_id_map` (with a truthy
id), and record `note_id → tag_ids` for notes with a truthy id and a
non-empty result list.  Repeated note ids overwrite (Python dict
assignment). -/
def map_note_tags_to_ids (parsed_notes : List ParsedNote)
    (tag_id_map : List (String × String)) : List (String × List String) :=
  parsed_notes.foldl (fun m note =>
    if note.id = "" then m
    else
      let tag_ids := note.tags.foldl (fun acc name =>
        if name = "" then acc
        else
          let normalized := pyStrip name
          if normalized = "" then acc
          else
            match keyLookup tag_id_map normalized with
            | some tid => if tid = "" then acc else acc ++ [tid]
            | none => acc) []
      if tag_ids = [] then m else setKey m note.id tag_ids) []

-- ---------------------------------------------------------------------------
-- Orchestrator: notebook map construction (real path, stage 1)
-- ---------------------------------------------------------------------------

/-- The notebook map built by the real path of `ingest_notes`: one entry per
truthy, first-seen notebook label, in input order.  The Python payload for a
label `nb` is the singleton `{"title": nb}`, fully determined by the label,
so the map is embedded as its ordered key list. -/
def notebookNames (parsed_notes : List ParsedNote) : List String :=
  parsed_notes.foldl (fun acc note =>
    match note.notebook with
    | some nb => if nb ≠ "" ∧ nb ∉ acc then acc ++ [nb] else acc
    | none => acc) []

-- ---------------------------------------------------------------------------
-- The persistence-client capability interface, with explicit state σ and
-- exceptions as Except.
-- ---------------------------------------------------------------------------

/-- The client surface consumed by `ingest_notes`: the four upsert
operations plus the injected embedding provider
(`client.embedding_client.generate`).  Each fallible operation either
completes with a result and a successor state or raises (`Except.error`). -/
structure PersistenceClient (σ : Type) where
  upsert_notebooks : List String → σ → Except String (List (String × String) × σ)
  upsert_tags : List String → σ → Except String (List (String × String) × σ)
  generate : String → Except String Emb
  upsert_note_with_embedding : NoteArgs → σ → Except String (UpsertResult × σ)
  upsert_note_tag_relationships : String → List String → σ → Except String σ

-- ---------------------------------------------------------------------------
-- Orchestrator: real path (dry_run=False branch of ingest_notes)
-- ---------------------------------------------------------------------------

/-- Append one failure entry `{id, error}` to the report
(`report.failures.append({"id": ..., "error": str(e)})`). -/
def Report.addFailure (r : Report) (id err : String) : Report :=
  { r with failures := r.failures ++ [(id, err)] }

/-- The insert/update branch of the real per-note stage: `"inserted"`
increments `notes_inserted`, `"updated"` increments `notes_updated`, and any
other value falls back defensively to `notes_inserted`. -/
def Report.countUpsert (r : Report) (result : UpsertResult) : Report :=
  if result = .statusStr "inserted" then { r with notes_inserted := r.notes_inserted + 1 }
  else if result = .statusStr "updated" then { r with notes_updated := r.notes_updated + 1 }
  else { r with notes_inserted := r.notes_inserted + 1 }

/-- The notebook_id resolution of the real per-note stage:
`notebook_id = notebook_id_map.get(note["notebook"]) if note.get("notebook") else None`. -/
def resolveNotebookId (nbIdMap : List (String × String)) (note : ParsedNote) :
    Option String :=
  match note.notebook with
  | some nb => if nb = "" then none else keyLookup nbIdMap nb
  | none => none

/-- One iteration of the real per-note loop of `ingest_notes`, including the
surrounding try/except: increment `notes_processed`; skip empty bodies;
otherwise resolve the notebook id, generate the embedding, upsert the note
(branching on the status result), then immediately upsert this note's tag
relationships.  Any exception raised by the embedding provider, the note
upsert, or the relationship upsert is caught and recorded as a failure for
this note; report and client-state mutations that happened before the raise
are kept, exactly as in Python. -/
def noteStep (c : PersistenceClient σ) (nbIdMap : List (String × String))
    (noteTagMap : List (String × List String)) (acc : Report × σ)
    (note : ParsedNote) : Report × σ :=
  let r := { acc.1 with notes_processed := acc.1.notes_processed + 1 }
  let s := acc.2
  if note.body = "" then
    ({ r with notes_skipped := r.notes_skipped + 1 }, s)
  else
    let notebook_id := resolveNotebookId nbIdMap note
    match c.generate note.body with
    | .error e => (r.addFailure note.id e, s)
    | .ok embedding =>
      match c.upsert_note_with_embedding
          { id := note.id, title := note.title, body := note.body,
            metadata := note.metadata, notebook_id := notebook_id,
            embedding := embedding } s with
      | .error e => (r.addFailure note.id e, s)
      | .ok (result, s') =>
        let r := r.countUpsert result
        let tag_ids := (keyLookup noteTagMap note.id).getD []
        match c.upsert_note_tag_relationships note.id tag_ids s' with
        | .error e => (r.addFailure note.id e, s')
        | .ok s'' =>
          ({ r with relationships_created := r.relationships_created + tag_ids.length }, s'')

/-- Observation function for the per-note try block: the message of the
exception raised while processing `note` from client state `s` (None when
the block completes without raising).  It replays the fallible calls of
`noteStep` in the same order with the same arguments. -/
def noteStepError (c : PersistenceClient σ) (nbIdMap : List (String × String))
    (noteTagMap : List (String × List String)) (note : ParsedNote) (s : σ) :
    Option String :=
  if note.body = "" then none
  else
    let notebook_id := resolveNotebookId nbIdMap note
    match c.generate note.body with
    | .error e => some e
    | .ok embedding =>
      match c.upsert_note_with_embedding
          { id := note.id, title := note.title, body := note.body,
            metadata := note.metadata, notebook_id := notebook_id,
            embedding := embedding } s with
      | .error e => some e
      | .ok (_, s') =>
        let tag_ids := (keyLookup noteTagMap note.id).getD []
        match c.upsert_note_tag_relationships note.id tag_ids s' with
        | .error e => some e
        | .ok _ => none

/-- The real (non-dry-run) path of `ingest_notes`: one `upsert_notebooks`
call, one `upsert_tags` call (setting `tags_inserted` to the size of the
returned map), then the per-note loop.  Errors of the two batch-level calls
propagate; per-note errors are caught inside `noteStep`. -/
def ingest_notes_real (c : PersistenceClient σ) (parsed_notes : List ParsedNote)
    (s : σ) : Except String (Report × σ) :=
  match c.upsert_notebooks (notebookNames parsed_notes) s with
  | .error e => .error e
  | .ok (notebook_id_map, s1) =>
    match c.upsert_tags (extract_all_tags parsed_notes) s1 with
    | .error e => .error e
    | .ok (tag_id_map, s2) =>
      let r0 : Report := { Report.init with tags_inserted := tag_id_map.length }
      let note_tag_map := map_note_tags_to_ids parsed_notes tag_id_map
      .ok (parsed_notes.foldl (noteStep c notebook_id_map note_tag_map) (r0, s2))

-- ---------------------------------------------------------------------------
-- Orchestrator: dry-run path (dry_run=True branch of ingest_notes, with a
-- client supplied, as in the repository's dry-run end-to-end test)
-- ---------------------------------------------------------------------------

/-- Stage 1 of the dry-run path: per note, increment `notes_processed`,
skip empty bodies, otherwise generate the embedding, forward the
NoteRecord-shaped payload to the client (the notebook id is the raw
notebook label, passed through verbatim), and count the note as inserted.
The dry-run path has no try/except, so an exception from the embedding
provider or the client aborts the whole run. -/
def dryLoop (c : PersistenceClient σ) :
    List ParsedNote → Report × σ → Except String (Report × σ)
  | [], acc => .ok acc
  | note :: rest, (r, s) =>
    let r := { r with notes_processed := r.notes_processed + 1 }
    if note.body = "" then
      dryLoop c rest ({ r with notes_skipped := r.notes_skipped + 1 }, s)
    else
      match c.generate note.body with
      | .error e => .error e
      | .ok embedding =>
        match c.upsert_note_with_embedding
            { id := note.id, title := note.title, body := note.body,
              metadata := note.metadata, notebook_id := note.notebook,
              embedding := embedding } s with
        | .error e => .error e
        | .ok (_, s') =>
          dryLoop c rest ({ r with notes_inserted := r.notes_inserted + 1 }, s')

/-- The dry-run path of `ingest_notes` with a client supplied: stage 1
simulates the notes, stage 2 sets `tags_inserted` to the size of the
distinct tag set, stage 3 adds the raw tag count of every note to
`relationships_created`.  No notebook, tag, or relationship call is made. -/
def ingest_notes_dry (c : PersistenceClient σ) (parsed_notes : List ParsedNote)
    (s : σ) : Except String (Report × σ) :=
  match dryLoop c parsed_notes (Report.init, s) with
  | .error e => .error e
  | .ok (r, s') =>
    let r := { r with tags_inserted := (extract_all_tags parsed_notes).length }
    let r := parsed_notes.foldl
      (fun r note => { r with relationships_created := r.relationships_created + note.tags.length }) r
    .ok (r, s')

/-- `ingest_notes(parsed_notes, client, dry_run)`
(`pke/ingestion/orchestrator.py`): dispatch between the dry-run simulation
and the real ingestion path.  The client is explicit; the Python
`client=None` real-mode configuration failure (an immediate ValueError) and
the clientless dry-run variant (which only swaps the embedding provider and
skips the per-note client call) are outside every property proved below,
each of which supplies a client. -/
def ingest_notes (c : PersistenceClient σ) (parsed_notes : List ParsedNote)
    (dry_run : Bool) (s : σ) : Except String (Report × σ) :=
  if dry_run then ingest_notes_dry c parsed_notes s
  else ingest_notes_real c parsed_notes s

-- ---------------------------------------------------------------------------
-- tests/fixtures/mock_supabase.py — MockSupabaseClient
-- ---------------------------------------------------------------------------

/-- One entry of the mock's call log (`self.calls`).  The Python log stores
tuples whose first component is the method name; `upsert_notebooks` logs a
hardcoded payload dict (ignored by every assertion), `upsert_tags` logs the
tag collection it received, `upsert_note_with_embedding` logs the note id
and notebook id, and `upsert_note_tag_relationships` logs the note id
prefixed with "note-" together with the tag-id list. -/
inductive CallRec where
  | upsert_notebooks
  | upsert_tags (tags : List String)
  | upsert_note_with_embedding (id : String) (notebook_id : Option String)
  | upsert_note_tag_relationships (note_id : String) (tag_ids : List String)
deriving DecidableEq

/-- The in-memory state of a `MockSupabaseClient`: the call log, the
accumulated notebook and tag maps, the recorded note payloads, the set of
already-seen note ids, and the recorded relationship pairs. -/
structure MockSupabaseClient where
  calls : List CallRec
  notebook_upserts : List (String × String)
  note_upserts : List NoteArgs
  existing_ids : List String
  tag_upserts : List (String × String)
  relationships : List (String × String)
deriving DecidableEq

/-- A freshly constructed `MockSupabaseClient()`: every log and map empty. -/
def MockSupabaseClient.init : MockSupabaseClient :=
  { calls := [], notebook_upserts := [], note_upserts := [],
    existing_ids := [], tag_upserts := [], relationships := [] }

/-- The id-assignment loop of the mock's `upsert_notebooks`:
`for idx, title in enumerate(ordered_titles, start=1):
self.notebook_upserts[title] = f"nb{idx}"`. -/
def nbAssign (m : List (String × String)) (idx : Nat) :
    List String → List (String × String)
  | [] => m
  | title :: rest => nbAssign (setKey m title ("nb" ++ toString idx)) (idx + 1) rest

/-- `MockSupabaseClient.upsert_notebooks`: log the call, then assign the
deterministic id `nb{idx}` to each title of this call's map in input order
(`enumerate(ordered_titles, start=1)`), and return the accumulated
`notebook_upserts` dict. -/
def MockSupabaseClient.upsert_notebooks (st : MockSupabaseClient)
    (ordered_titles : List String) : List (String × String) × MockSupabaseClient :=
  let st := { st with calls := st.calls ++ [CallRec.upsert_notebooks] }
  let st := { st with notebook_upserts := nbAssign st.notebook_upserts 1 ordered_titles }
  (st.notebook_upserts, st)

/-- The accumulation loop of the mock's `upsert_tags`:
`for tag in tags: if tag not in self.tag_upserts:
self.tag_upserts[tag] = f"uuid-tag-{safe}"`. -/
def tagAssign (m : List (String × String)) (tags : List String) :
    List (String × String) :=
  tags.foldl
    (fun m t =>
      if keyMem m t then m
      else m ++ [(t, "uuid-tag-" ++ pyUnderscore t)]) m

/-- `MockSupabaseClient.upsert_tags`: log the call, add `uuid-tag-<name>`
(spaces replaced by underscores) for every tag not already present, and
return the accumulated `tag_upserts` dict. -/
def MockSupabaseClient.upsert_tags (st : MockSupabaseClient)
    (tags : List String) : List (String × String) × MockSupabaseClient :=
  let st := { st with calls := st.calls ++ [CallRec.upsert_tags tags] }
  let st := { st with tag_upserts := tagAssign st.tag_upserts tags }
  (st.tag_upserts, st)

/-- `MockSupabaseClient.upsert_note_with_embedding`: log the call and the
payload, then return `"updated"` when the id is already in `existing_ids`
and otherwise add the id and return `"inserted"`. -/
def MockSupabaseClient.upsert_note_with_embedding (st : MockSupabaseClient)
    (a : NoteArgs) : UpsertResult × MockSupabaseClient :=
  let st := { st with
    calls := st.calls ++ [CallRec.upsert_note_with_embedding a.id a.notebook_id],
    note_upserts := st.note_upserts ++ [a] }
  if a.id ∈ st.existing_ids then (.statusStr "updated", st)
  else (.statusStr "inserted", { st with existing_ids := st.existing_ids ++ [a.id] })

/-- `MockSupabaseClient.upsert_note_tag_relationships`: record each
`(note_id, tag_id)` pair in order, then log the call with the note id
prefixed by "note-". -/
def MockSupabaseClient.upsert_note_tag_relationships (st : MockSupabaseClient)
    (note_id : String) (tag_ids : List String) : MockSupabaseClient :=
  let st := { st with
    relationships := st.relationships ++ tag_ids.map (fun tid => (note_id, tid)) }
  { st with
    calls := st.calls ++ [CallRec.upsert_note_tag_relationships ("note-" ++ note_id) tag_ids] }

/-- The `MockSupabaseClient` packaged as a `PersistenceClient`: every
operation is total (the mock performs no I/O and raises nothing), and the
embedding provider is the deterministic `EmbeddingClient`, a pure function
of the body. -/
def mockClient : PersistenceClient MockSupabaseClient :=
  { upsert_notebooks := fun names st => .ok (st.upsert_notebooks names),
    upsert_tags := fun tags st => .ok (st.upsert_tags tags),
    generate := fun body => .ok ⟨body⟩,
    upsert_note_with_embedding := fun a st => .ok (st.upsert_note_with_embedding a),
    upsert_note_tag_relationships := fun id tids st =>
      .ok (st.upsert_note_tag_relationships id tids) }

-- ---------------------------------------------------------------------------
-- Total forms of the two paths run against the mock client
-- ---------------------------------------------------------------------------

/-- The real path run against a `MockSupabaseClient`, as a total function:
the mock raises nothing, so the Except wrapper of `ingest_notes_real`
disappears (`ingest_real_mock_ok` below checks this against the embedding). -/
def mockRealRun (parsed_notes : List ParsedNote) (st : MockSupabaseClient) :
    Report × MockSupabaseClient :=
  let (notebook_id_map, s1) := st.upsert_notebooks (notebookNames parsed_notes)
  let (tag_id_map, s2) := s1.upsert_tags (extract_all_tags parsed_notes)
  let r0 : Report := { Report.init with tags_inserted := tag_id_map.length }
  let note_tag_map := map_note_tags_to_ids parsed_notes tag_id_map
  parsed_notes.foldl (noteStep mockClient notebook_id_map note_tag_map) (r0, s2)

/-- Against the mock client, the real path never raises and computes
`mockRealRun`. -/
theorem ingest_real_mock_ok (parsed_notes : List ParsedNote)
    (st : MockSupabaseClient) :
    ingest_notes_real mockClient parsed_notes st = .ok (mockRealRun parsed_notes st) := rfl

/-- Stage 1 of the dry-run path against the mock, as a total fold step. -/
def mockDryStep (acc : Report × MockSupabaseClient) (note : ParsedNote) :
    Report × MockSupabaseClient :=
  let r := { acc.1 with notes_processed := acc.1.notes_processed + 1 }
  if note.body = "" then
    ({ r with notes_skipped := r.notes_skipped + 1 }, acc.2)
  else
    let (_, s') := acc.2.upsert_note_with_embedding
      { id := note.id, title := note.title, body := note.body,
        metadata := note.metadata, notebook_id := note.notebook,
        embedding := ⟨note.body⟩ }
    ({ r with notes_inserted := r.notes_inserted + 1 }, s')

/-- The dry-run path run against a `MockSupabaseClient`, as a total
function (`ingest_dry_mock_ok` below checks it against the embedding). -/
def mockDryRun (parsed_notes : List ParsedNote) (st : MockSupabaseClient) :
    Report × MockSupabaseClient :=
  let (r, s') := parsed_notes.foldl mockDryStep (Report.init, st)
  let r := { r with tags_inserted := (extract_all_tags parsed_notes).length }
  let r := parsed_notes.foldl
    (fun r note => { r with relationships_created := r.relationships_created + note.tags.length }) r
  (r, s')

theorem dryLoop_mock (parsed_notes : List ParsedNote) (acc : Report × MockSupabaseClient) :
    dryLoop mockClient parsed_notes acc = .ok (parsed_notes.foldl mockDryStep acc) := by
  induction parsed_notes generalizing acc with
  | nil => rfl
  | cons note rest ih =>
    obtain ⟨r, s⟩ := acc
    by_cases h : note.body = "" <;> simp [dryLoop, mockDryStep, mockClient, h] <;> exact ih _

/-- Against the mock client, the dry-run path never raises and computes
`mockDryRun`. -/
theorem ingest_dry_mock_ok (parsed_notes : List ParsedNote)
    (st : MockSupabaseClient) :
    ingest_notes_dry mockClient parsed_notes st = .ok (mockDryRun parsed_notes st) := by
  unfold ingest_notes_dry mockDryRun
  rw [dryLoop_mock]

-- ---------------------------------------------------------------------------
-- pke/supabase_client.py — the real SupabaseClient wrapper over a
-- dict-style backing store
-- ---------------------------------------------------------------------------

/-- A Python value stored in a backing-store row: None, a string, an
embedding vector (symbolic: `emb body` is `compute_embedding(body)`, the
provider being deterministic in the body; `zeroEmb` is the dry-run fake
`[0.0] * 1536`), the empty-list default used for `resources`, or the
verbatim legacy metadata dict kept in the dry-run record for backward
compatibility.  Metadata values are the opaque `MetaVal` passthroughs. -/
inductive PyVal where
  | none
  | str (s : String)
  | emb (body : String)
  | zeroEmb
  | emptyList
  | dictM (m : List (String × MetaVal))
deriving DecidableEq

/-- A backing-store row / record payload: an insertion-ordered dict. -/
abbrev Row := List (String × PyVal)

/-- Modelled from the spec: the backing store's wire contract (§6), which
is not part of the repository source — batch upsert with a declared
conflict column per entity type, rows receiving store-assigned stable ids,
point lookup by primary key, success payloads echoing the affected rows.
The store keeps one row list per table name and a counter for fresh ids. -/
structure Backend where
  nextId : Nat
  tables : List (String × List Row)
deriving DecidableEq

/-- A fresh backing store: the four schema tables exist and are empty. -/
def Backend.empty : Backend :=
  { nextId := 0,
    tables := [("notebooks", []), ("tags", []), ("notes", []), ("note_tags", [])] }

/-- Whether payload row `p` conflicts with stored row `r` on the declared
conflict column: both carry the column and the values coincide.  (A payload
that lacks the conflict column is inserted as a new row.) -/
def rowConflicts (conflict : String) (p r : Row) : Bool :=
  match keyLookup p conflict, keyLookup r conflict with
  | some v, some w => v == w
  | _, _ => false

/-- Modelled from the spec: upsert of a single payload row keyed on the
conflict column.  A conflicting stored row is overwritten in place, keeping
the stored row's id; a non-conflicting row is inserted, keeping the primary
key it carries or receiving a fresh store-assigned id when it carries none.
The affected row is returned. -/
def Backend.upsertOne (b : Backend) (table conflict : String) (p : Row) :
    Row × Backend :=
  let rows := (keyLookup b.tables table).getD []
  match rows.find? (fun r => rowConflicts conflict p r) with
  | some r0 =>
    let merged :=
      match keyLookup r0 "id" with
      | some idv => setKey p "id" idv
      | Option.none => p
    let rows := rows.map (fun r => if r == r0 then merged else r)
    (merged, { b with tables := setKey b.tables table rows })
  | none =>
    match keyLookup p "id" with
    | some PyVal.none =>
      let newRow := setKey p "id" (PyVal.str ("row-" ++ toString b.nextId))
      (newRow,
       { b with nextId := b.nextId + 1,
                tables := setKey b.tables table (rows ++ [newRow]) })
    | some _ => (p, { b with tables := setKey b.tables table (rows ++ [p]) })
    | Option.none =>
      let newRow := p ++ [("id", PyVal.str ("row-" ++ toString b.nextId))]
      (newRow,
       { b with nextId := b.nextId + 1,
                tables := setKey b.tables table (rows ++ [newRow]) })

/-- One step of the batch upsert: apply a payload row and collect the
affected row. -/
def Backend.upsertStep (table conflict : String) (acc : List Row × Backend)
    (p : Row) : List Row × Backend :=
  let (row, b') := Backend.upsertOne acc.2 table conflict p
  (acc.1 ++ [row], b')

/-- Modelled from the spec: batch upsert — the payload rows are applied in
order and the affected rows are returned in payload order with status 200
(this store always succeeds, so the `_extract_data` RuntimeError branch for
error responses is unreachable and the response is embedded as its data). -/
def Backend.upsert (b : Backend) (table conflict : String) (payload : List Row) :
    List Row × Backend :=
  payload.foldl (Backend.upsertStep table conflict) ([], b)

/-- Python `row[k]` expecting a string value: `Except.error` is the
KeyError raised when the row lacks the key. -/
def rowStrVal (r : Row) (k : String) : Except String String :=
  match keyLookup r k with
  | some (PyVal.str s) => .ok s
  | some _ => .error ("TypeError: " ++ k)
  | Option.none => .error ("KeyError: " ++ k)

/-- The dict comprehension `{row[key]: row["id"] for row in rows}` used by
`upsert_notebooks` and `upsert_tags` to build the returned name-to-id map;
raises on the first row lacking a key.  `m` is the accumulated dict
(callers start from the empty dict). -/
def rowsToNameIdMap (key : String) (m : List (String × String)) :
    List Row → Except String (List (String × String))
  | [] => .ok m
  | r :: rest =>
    match rowStrVal r key, rowStrVal r "id" with
    | .ok n, .ok i => rowsToNameIdMap key (setKey m n i) rest
    | .error e, _ => .error e
    | _, .error e => .error e

/-- The state of a `SupabaseClient` wrapper: the dry-run flag, whether an
underlying client is configured, and the backing store it writes through.
`SupabaseClient(dry_run=True)` has no client; real mode requires one. -/
structure SupabaseClient where
  dry_run : Bool
  hasClient : Bool
  backend : Backend
deriving DecidableEq

/-- A real-mode `SupabaseClient` wired to a configured client over a fresh
backing store. -/
def SupabaseClient.freshReal : SupabaseClient :=
  { dry_run := false, hasClient := true, backend := Backend.empty }

/-- `SupabaseClient(dry_run=True)`: dry-run mode, no client. -/
def SupabaseClient.dryMode : SupabaseClient :=
  { dry_run := true, hasClient := false, backend := Backend.empty }

/-- An opaque metadata value as a Python value. -/
def MetaVal.toPyVal : MetaVal → PyVal
  | MetaVal.none => PyVal.none
  | MetaVal.str s => PyVal.str s

/-- `metadata.get(k) if metadata else None` for the explicit note fields. -/
def metaGet (metadata : Option (List (String × MetaVal))) (k : String) : PyVal :=
  match metadata with
  | Option.none => PyVal.none
  | some md =>
    match keyLookup md k with
    | some v => v.toPyVal
    | Option.none => PyVal.none

/-- `metadata.get("resources", []) if metadata else []`. -/
def metaResources (metadata : Option (List (String × MetaVal))) : PyVal :=
  match metadata with
  | Option.none => PyVal.emptyList
  | some md =>
    match keyLookup md "resources" with
    | some v => v.toPyVal
    | Option.none => PyVal.emptyList

/-- An optional string as a Python value (None or the string). -/
def optStr : Option String → PyVal
  | Option.none => PyVal.none
  | some s => PyVal.str s

/-- `SupabaseClient.upsert_notebooks` (`pke/supabase_client.py`): empty
input returns the empty map without touching the store; dry-run mode
returns deterministic fake ids; real mode requires a client, upserts the
payload values (`{"title": name}` dicts built by the orchestrator) into the
`notebooks` table with conflict column `"name"`, and builds the returned
map from `row["name"]` and `row["id"]` of the affected rows. -/
def SupabaseClient.upsert_notebooks (st : SupabaseClient)
    (notebook_map : List (String × Row)) :
    Except String (List (String × String) × SupabaseClient) :=
  if notebook_map = [] then .ok ([], st)
  else if st.dry_run then
    .ok (notebook_map.map (fun p => (p.1, "dry-notebook-" ++ p.1)), st)
  else if st.hasClient = false then .error "Supabase client is not configured"
  else
    let payload := notebook_map.map (·.2)
    let (rows, b) := st.backend.upsert "notebooks" "name" payload
    match rowsToNameIdMap "name" [] rows with
    | .error e => .error e
    | .ok m => .ok (m, { st with backend := b })

/-- The `{"name": t}` payload row of a tag upsert. -/
def mkNameRow (t : String) : Row := [("name", PyVal.str t)]

/-- `SupabaseClient.upsert_tags` (`pke/supabase_client.py`): empty input
returns the empty map; otherwise the tag list is deduplicated
(`list(set(tags))`, embedded as first-occurrence dedup — no proved property
depends on the set's iteration order) and, in real mode, upserted into the
`tags` table as `{"name": t}` payloads with conflict column `"name"`.
No trimming and no empty-dropping happens here. -/
def SupabaseClient.upsert_tags (st : SupabaseClient) (tags : List String) :
    Except String (List (String × String) × SupabaseClient) :=
  if tags = [] then .ok ([], st)
  else
    let unique_tags := pyDedup tags
    if st.dry_run then
      .ok (unique_tags.map (fun t => (t, "dry-tag-" ++ t)), st)
    else if st.hasClient = false then .error "Supabase client is not configured"
    else
      let payload := unique_tags.map mkNameRow
      let (rows, b) := st.backend.upsert "tags" "name" payload
      match rowsToNameIdMap "name" [] rows with
      | .error e => .error e
      | .ok m => .ok (m, { st with backend := b })

/-- `SupabaseClient.upsert_note_with_embedding` (`pke/supabase_client.py`):
guard that real mode has a client, reject an empty body (ValueError in both
modes), return the deterministic fake record in dry-run mode, and in real
mode compute the embedding, build the explicit-field record, upsert it into
the target table (the single-record `upsert(record)` call declares no
conflict column, so the store keys it on the primary key `"id"`), and
return the affected rows.  The real mode performs no prior existence
lookup and returns the row list, not an insert/update status. -/
def SupabaseClient.upsert_note_with_embedding (st : SupabaseClient)
    (title body : String) (metadata : Option (List (String × MetaVal)))
    (id : Option String) (notebook_id : Option String) (table : String) :
    Except String (List Row × SupabaseClient) :=
  if st.dry_run = false ∧ st.hasClient = false then
    .error "No client provided to SupabaseClient"
  else if body = "" then .error "body must be provided"
  else if st.dry_run then
    .ok ([[("id", optStr id), ("title", PyVal.str title),
           ("body", PyVal.str body), ("embedding", PyVal.zeroEmb),
           ("notebook_id", optStr notebook_id),
           ("metadata", PyVal.dictM (metadata.getD []))]], st)
  else
    let record : Row :=
      [("id", optStr id), ("title", PyVal.str title),
       ("body", PyVal.str body), ("embedding", PyVal.emb body),
       ("notebook_id", optStr notebook_id),
       ("created_time", metaGet metadata "created_time"),
       ("updated_time", metaGet metadata "updated_time"),
       ("deleted_time", metaGet metadata "deleted_time"),
       ("user_created_time", metaGet metadata "user_created_time"),
       ("user_updated_time", metaGet metadata "user_updated_time"),
       ("is_conflict", metaGet metadata "is_conflict"),
       ("source", metaGet metadata "source"),
       ("source_application", metaGet metadata "source_application"),
       ("markup_language", metaGet metadata "markup_language"),
       ("resources", metaResources metadata)]
    let (rows, b) := st.backend.upsert table "id" [record]
    .ok (rows, { st with backend := b })

-- ---------------------------------------------------------------------------
-- Shared lemmas: association lists
-- ---------------------------------------------------------------------------

theorem keyLookup_setKey (m : List (String × α)) (k : String) (v : α) :
    keyLookup (setKey m k v) k = some v := by
  induction m with
  | nil => simp [setKey, keyLookup]
  | cons p rest ih =>
    obtain ⟨k', v'⟩ := p
    by_cases h : k' = k <;> simp [setKey, keyLookup, h, ih]

theorem setKey_of_lookup_self (m : List (String × α)) (k : String) (v : α)
    (h : keyLookup m k = some v) : setKey m k v = m := by
  induction m with
  | nil => simp [keyLookup] at h
  | cons p rest ih =>
    obtain ⟨k', v'⟩ := p
    by_cases hk : k' = k
    · simp [keyLookup, hk] at h
      simp [setKey, hk, h]
    · simp [keyLookup, hk] at h
      simp [setKey, hk, ih h]

theorem setKey_setKey (m : List (String × α)) (k : String) (v w : α) :
    setKey (setKey m k v) k w = setKey m k w := by
  induction m with
  | nil => simp [setKey]
  | cons p rest ih =>
    obtain ⟨k', v'⟩ := p
    by_cases h : k' = k <;> simp [setKey, h, ih]

theorem setKey_of_not_mem (m : List (String × α)) (k : String) (v : α)
    (h : keyMem m k = false) : setKey m k v = m ++ [(k, v)] := by
  induction m with
  | nil => simp [setKey]
  | cons p rest ih =>
    obtain ⟨k', v'⟩ := p
    by_cases hk : k' = k
    · simp [keyMem, hk] at h
    · simp [keyMem, hk] at h
      simp [setKey, hk, ih h]

theorem keyMem_append_single (m : List (String × α)) (k k' : String) (v : α) :
    keyMem (m ++ [(k', v)]) k = (keyMem m k || decide (k' = k)) := by
  induction m with
  | nil => simp [keyMem]
  | cons p rest ih =>
    obtain ⟨a, b⟩ := p
    by_cases h : a = k <;> simp [keyMem, h, ih]

theorem keysOf_append (m m' : List (String × α)) :
    keysOf (m ++ m') = keysOf m ++ keysOf m' := by
  simp [keysOf]

-- ---------------------------------------------------------------------------
-- Shared lemmas: the real per-note loop
-- ---------------------------------------------------------------------------

theorem noteStep_processed (c : PersistenceClient σ) (nbM : List (String × String))
    (ntm : List (String × List String)) (acc : Report × σ) (n : ParsedNote) :
    (noteStep c nbM ntm acc n).1.notes_processed = acc.1.notes_processed + 1 := by
  obtain ⟨r, s⟩ := acc
  by_cases hb : n.body = ""
  · simp [noteStep, hb]
  · simp only [noteStep, hb, if_false]
    rcases hg : c.generate n.body with e | embedding
    · simp [hg, Report.addFailure]
    · simp only [hg]
      rcases hu : c.upsert_note_with_embedding
          { id := n.id, title := n.title, body := n.body, metadata := n.metadata,
            notebook_id := resolveNotebookId nbM n, embedding := embedding } s with e | ⟨result, s1⟩
      · simp [hu, Report.addFailure]
      · simp only [hu]
        rcases hr : c.upsert_note_tag_relationships n.id ((keyLookup ntm n.id).getD []) s1 with e | s2
        · simp only [hr, Report.addFailure, Report.countUpsert]
          split_ifs <;> simp
        · simp only [hr, Report.countUpsert]
          split_ifs <;> simp

/-- Each iteration of the real per-note loop accounts for its note at least
once: it bumps skipped, inserted, updated, or appends a failure (possibly
an upsert count and a failure both, when the relationship call raises). -/
theorem noteStep_outcome (c : PersistenceClient σ) (nbM : List (String × String))
    (ntm : List (String × List String)) (acc : Report × σ) (n : ParsedNote) :
    acc.1.notes_skipped + acc.1.notes_inserted + acc.1.notes_updated +
      acc.1.failures.length + 1 ≤
    (noteStep c nbM ntm acc n).1.notes_skipped +
      (noteStep c nbM ntm acc n).1.notes_inserted +
      (noteStep c nbM ntm acc n).1.notes_updated +
      (noteStep c nbM ntm acc n).1.failures.length := by
  obtain ⟨r, s⟩ := acc
  by_cases hb : n.body = ""
  · simp [noteStep, hb]
    omega
  · simp only [noteStep, hb, if_false]
    rcases hg : c.generate n.body with e | embedding
    · simp [hg, Report.addFailure]
      omega
    · simp only [hg]
      rcases hu : c.upsert_note_with_embedding
          { id := n.id, title := n.title, body := n.body, metadata := n.metadata,
            notebook_id := resolveNotebookId nbM n, embedding := embedding } s with e | ⟨result, s1⟩
      · simp [hu, Report.addFailure]
        omega
      · simp only [hu]
        rcases hr : c.upsert_note_tag_relationships n.id ((keyLookup ntm n.id).getD []) s1 with e | s2
        · simp only [hr, Report.addFailure, Report.countUpsert]
          split_ifs <;> simp <;> omega
        · simp only [hr, Report.countUpsert]
          split_ifs <;> simp <;> omega

theorem loop_processed (c : PersistenceClient σ) (nbM : List (String × String))
    (ntm : List (String × List String)) (notes : List ParsedNote) (acc : Report × σ) :
    ((notes.foldl (noteStep c nbM ntm) acc).1.notes_processed) =
      acc.1.notes_processed + notes.length := by
  induction notes generalizing acc with
  | nil => simp
  | cons n rest ih =>
    simp only [List.foldl_cons, ih, noteStep_processed, List.length_cons]
    omega

theorem loop_outcome (c : PersistenceClient σ) (nbM : List (String × String))
    (ntm : List (String × List String)) (notes : List ParsedNote) (acc : Report × σ) :
    acc.1.notes_skipped + acc.1.notes_inserted + acc.1.notes_updated +
      acc.1.failures.length + notes.length ≤
    (notes.foldl (noteStep c nbM ntm) acc).1.notes_skipped +
      (notes.foldl (noteStep c nbM ntm) acc).1.notes_inserted +
      (notes.foldl (noteStep c nbM ntm) acc).1.notes_updated +
      (notes.foldl (noteStep c nbM ntm) acc).1.failures.length := by
  induction notes generalizing acc with
  | nil => simp
  | cons n rest ih =>
    have h1 := noteStep_outcome c nbM ntm acc n
    have h2 := ih (noteStep c nbM ntm acc n)
    simp only [List.foldl_cons, List.length_cons]
    omega

-- ---------------------------------------------------------------------------
-- Shared lemmas: the per-note loop against the mock client
-- ---------------------------------------------------------------------------

/-- Whether the orchestrator skips a note: Python `not note.get("body")`. -/
def emptyBody (n : ParsedNote) : Bool := n.body == ""

/-- The non-skipped notes of a batch, in input order. -/
def nonSkipped (notes : List ParsedNote) : List ParsedNote :=
  notes.filter (fun n => ! emptyBody n)

/-- The per-note pair of calls the mock records for a non-skipped note. -/
def tracePair (nbM : List (String × String)) (ntm : List (String × List String))
    (n : ParsedNote) : List CallRec :=
  [CallRec.upsert_note_with_embedding n.id (resolveNotebookId nbM n),
   CallRec.upsert_note_tag_relationships ("note-" ++ n.id) ((keyLookup ntm n.id).getD [])]

theorem noteStep_mock_skip (nbM : List (String × String))
    (ntm : List (String × List String)) (acc : Report × MockSupabaseClient)
    (n : ParsedNote) (hb : n.body = "") :
    noteStep mockClient nbM ntm acc n =
      ({ acc.1 with notes_processed := acc.1.notes_processed + 1,
                    notes_skipped := acc.1.notes_skipped + 1 }, acc.2) := by
  obtain ⟨r, s⟩ := acc
  simp [noteStep, hb]

theorem noteStep_mock_calls (nbM : List (String × String))
    (ntm : List (String × List String)) (acc : Report × MockSupabaseClient)
    (n : ParsedNote) :
    (noteStep mockClient nbM ntm acc n).2.calls =
      acc.2.calls ++ (if n.body = "" then [] else tracePair nbM ntm n) := by
  obtain ⟨r, s⟩ := acc
  by_cases hb : n.body = ""
  · simp [noteStep, hb]
  · by_cases hex : n.id ∈ s.existing_ids <;>
      simp [noteStep, hb, mockClient, MockSupabaseClient.upsert_note_with_embedding,
        MockSupabaseClient.upsert_note_tag_relationships, hex, tracePair]

theorem noteStep_mock_failures (nbM : List (String × String))
    (ntm : List (String × List String)) (acc : Report × MockSupabaseClient)
    (n : ParsedNote) :
    (noteStep mockClient nbM ntm acc n).1.failures = acc.1.failures := by
  obtain ⟨r, s⟩ := acc
  by_cases hb : n.body = ""
  · simp [noteStep, hb]
  · by_cases hex : n.id ∈ s.existing_ids <;>
      simp [noteStep, hb, mockClient, MockSupabaseClient.upsert_note_with_embedding,
        MockSupabaseClient.upsert_note_tag_relationships, hex, Report.countUpsert]

theorem noteStep_mock_skipped (nbM : List (String × String))
    (ntm : List (String × List String)) (acc : Report × MockSupabaseClient)
    (n : ParsedNote) :
    (noteStep mockClient nbM ntm acc n).1.notes_skipped =
      acc.1.notes_skipped + (if n.body = "" then 1 else 0) := by
  obtain ⟨r, s⟩ := acc
  by_cases hb : n.body = ""
  · simp [noteStep, hb]
  · by_cases hex : n.id ∈ s.existing_ids <;>
      simp [noteStep, hb, mockClient, MockSupabaseClient.upsert_note_with_embedding,
        MockSupabaseClient.upsert_note_tag_relationships, hex, Report.countUpsert]

theorem noteStep_mock_ins_upd (nbM : List (String × String))
    (ntm : List (String × List String)) (acc : Report × MockSupabaseClient)
    (n : ParsedNote) :
    (noteStep mockClient nbM ntm acc n).1.notes_inserted +
      (noteStep mockClient nbM ntm acc n).1.notes_updated =
      acc.1.notes_inserted + acc.1.notes_updated + (if n.body = "" then 0 else 1) := by
  obtain ⟨r, s⟩ := acc
  by_cases hb : n.body = ""
  · simp [noteStep, hb]
  · by_cases hex : n.id ∈ s.existing_ids <;>
      simp [noteStep, hb, mockClient, MockSupabaseClient.upsert_note_with_embedding,
        MockSupabaseClient.upsert_note_tag_relationships, hex, Report.countUpsert] <;>
      omega

theorem noteStep_mock_existing_mono (nbM : List (String × String))
    (ntm : List (String × List String)) (acc : Report × MockSupabaseClient)
    (n : ParsedNote) (x : String) (hx : x ∈ acc.2.existing_ids) :
    x ∈ (noteStep mockClient nbM ntm acc n).2.existing_ids := by
  obtain ⟨r, s⟩ := acc
  by_cases hb : n.body = ""
  · simpa [noteStep, hb] using hx
  · by_cases hex : n.id ∈ s.existing_ids <;>
      simp [noteStep, hb, mockClient, MockSupabaseClient.upsert_note_with_embedding,
        MockSupabaseClient.upsert_note_tag_relationships, hex, Report.countUpsert] <;>
      simp [hx]

theorem noteStep_mock_adds_id (nbM : List (String × String))
    (ntm : List (String × List String)) (acc : Report × MockSupabaseClient)
    (n : ParsedNote) (hb : ¬ n.body = "") :
    n.id ∈ (noteStep mockClient nbM ntm acc n).2.existing_ids := by
  obtain ⟨r, s⟩ := acc
  by_cases hex : n.id ∈ s.existing_ids <;>
    simp [noteStep, hb, mockClient, MockSupabaseClient.upsert_note_with_embedding,
      MockSupabaseClient.upsert_note_tag_relationships, hex, Report.countUpsert]

/-- When every non-skipped note of the step is already known to the mock,
the step reports "updated": inserted is unchanged and the id set is
unchanged. -/
theorem noteStep_mock_updated (nbM : List (String × String))
    (ntm : List (String × List String)) (acc : Report × MockSupabaseClient)
    (n : ParsedNote) (h : n.body = "" ∨ n.id ∈ acc.2.existing_ids) :
    (noteStep mockClient nbM ntm acc n).1.notes_inserted = acc.1.notes_inserted ∧
    (noteStep mockClient nbM ntm acc n).1.notes_updated =
      acc.1.notes_updated + (if n.body = "" then 0 else 1) ∧
    (noteStep mockClient nbM ntm acc n).2.existing_ids = acc.2.existing_ids := by
  obtain ⟨r, s⟩ := acc
  by_cases hb : n.body = ""
  · simp [noteStep, hb]
  · have hex : n.id ∈ s.existing_ids := by
      rcases h with h | h
      · exact absurd h hb
      · exact h
    simp [noteStep, hb, mockClient, MockSupabaseClient.upsert_note_with_embedding,
      MockSupabaseClient.upsert_note_tag_relationships, hex, Report.countUpsert]

theorem noteStep_mock_maps (nbM : List (String × String))
    (ntm : List (String × List String)) (acc : Report × MockSupabaseClient)
    (n : ParsedNote) :
    (noteStep mockClient nbM ntm acc n).2.notebook_upserts = acc.2.notebook_upserts ∧
    (noteStep mockClient nbM ntm acc n).2.tag_upserts = acc.2.tag_upserts := by
  obtain ⟨r, s⟩ := acc
  by_cases hb : n.body = ""
  · simp [noteStep, hb]
  · by_cases hex : n.id ∈ s.existing_ids <;>
      simp [noteStep, hb, mockClient, MockSupabaseClient.upsert_note_with_embedding,
        MockSupabaseClient.upsert_note_tag_relationships, hex, Report.countUpsert]

theorem loop_mock_calls (nbM : List (String × String))
    (ntm : List (String × List String)) (notes : List ParsedNote)
    (acc : Report × MockSupabaseClient) :
    ((notes.foldl (noteStep mockClient nbM ntm) acc).2).calls =
      acc.2.calls ++ (nonSkipped notes).flatMap (tracePair nbM ntm) := by
  induction notes generalizing acc with
  | nil => simp [nonSkipped]
  | cons n rest ih =>
    by_cases hb : n.body = ""
    · simp only [List.foldl_cons, ih, noteStep_mock_calls, hb, if_true, nonSkipped,
        List.filter_cons, emptyBody]
      simp [hb]
    · simp only [List.foldl_cons, ih, noteStep_mock_calls, hb, if_false, nonSkipped,
        List.filter_cons, emptyBody]
      simp [hb, nonSkipped]

theorem loop_mock_failures (nbM : List (String × String))
    (ntm : List (String × List String)) (notes : List ParsedNote)
    (acc : Report × MockSupabaseClient) :
    ((notes.foldl (noteStep mockClient nbM ntm) acc).1).failures = acc.1.failures := by
  induction notes generalizing acc with
  | nil => rfl
  | cons n rest ih => simp only [List.foldl_cons, ih, noteStep_mock_failures]

theorem loop_mock_skipped (nbM : List (String × String))
    (ntm : List (String × List String)) (notes : List ParsedNote)
    (acc : Report × MockSupabaseClient) :
    ((notes.foldl (noteStep mockClient nbM ntm) acc).1).notes_skipped =
      acc.1.notes_skipped + (notes.filter emptyBody).length := by
  induction notes generalizing acc with
  | nil => simp
  | cons n rest ih =>
    by_cases hb : n.body = "" <;>
      simp [List.foldl_cons, ih, noteStep_mock_skipped, hb, List.filter_cons, emptyBody] <;>
      omega

theorem loop_mock_ins_upd (nbM : List (String × String))
    (ntm : List (String × List String)) (notes : List ParsedNote)
    (acc : Report × MockSupabaseClient) :
    ((notes.foldl (noteStep mockClient nbM ntm) acc).1).notes_inserted +
      ((notes.foldl (noteStep mockClient nbM ntm) acc).1).notes_updated =
      acc.1.notes_inserted + acc.1.notes_updated + (nonSkipped notes).length := by
  induction notes generalizing acc with
  | nil => simp [nonSkipped]
  | cons n rest ih =>
    have hstep := noteStep_mock_ins_upd nbM ntm acc n
    by_cases hb : n.body = "" <;>
      simp only [List.foldl_cons, ih, nonSkipped, List.filter_cons, emptyBody] <;>
      simp [hb] at hstep ⊢ <;>
      omega

theorem loop_mock_existing_mono (nbM : List (String × String))
    (ntm : List (String × List String)) (notes : List ParsedNote)
    (acc : Report × MockSupabaseClient) (x : String) (hx : x ∈ acc.2.existing_ids) :
    x ∈ ((notes.foldl (noteStep mockClient nbM ntm) acc).2).existing_ids := by
  induction notes generalizing acc with
  | nil => exact hx
  | cons n rest ih =>
    exact ih (noteStep mockClient nbM ntm acc n) (noteStep_mock_existing_mono nbM ntm acc n x hx)

theorem loop_mock_collects_ids (nbM : List (String × String))
    (ntm : List (String × List String)) (notes : List ParsedNote)
    (acc : Report × MockSupabaseClient) (n : ParsedNote) (hn : n ∈ notes)
    (hb : ¬ n.body = "") :
    n.id ∈ ((notes.foldl (noteStep mockClient nbM ntm) acc).2).existing_ids := by
  induction notes generalizing acc with
  | nil => cases hn
  | cons m rest ih =>
    rcases List.mem_cons.mp hn with h | h
    · subst h
      exact loop_mock_existing_mono nbM ntm rest _ n.id (noteStep_mock_adds_id nbM ntm acc n hb)
    · exact ih _ h

theorem loop_mock_updated (nbM : List (String × String))
    (ntm : List (String × List String)) (notes : List ParsedNote)
    (acc : Report × MockSupabaseClient)
    (h : ∀ n ∈ notes, ¬ n.body = "" → n.id ∈ acc.2.existing_ids) :
    ((notes.foldl (noteStep mockClient nbM ntm) acc).1).notes_inserted =
      acc.1.notes_inserted ∧
    ((notes.foldl (noteStep mockClient nbM ntm) acc).1).notes_updated =
      acc.1.notes_updated + (nonSkipped notes).length ∧
    ((notes.foldl (noteStep mockClient nbM ntm) acc).2).existing_ids =
      acc.2.existing_ids := by
  induction notes generalizing acc with
  | nil => simp [nonSkipped]
  | cons n rest ih =>
    have hn : n.body = "" ∨ n.id ∈ acc.2.existing_ids := by
      by_cases hb : n.body = ""
      · exact Or.inl hb
      · exact Or.inr (h n (List.mem_cons_self n rest) hb)
    obtain ⟨h1, h2, h3⟩ := noteStep_mock_updated nbM ntm acc n hn
    have hrest : ∀ m ∈ rest, ¬ m.body = "" →
        m.id ∈ (noteStep mockClient nbM ntm acc n).2.existing_ids := by
      intro m hm hb
      rw [h3]
      exact h m (List.mem_cons_of_mem n hm) hb
    obtain ⟨i1, i2, i3⟩ := ih (noteStep mockClient nbM ntm acc n) hrest
    refine ⟨by rw [List.foldl_cons, i1, h1], ?_, by rw [List.foldl_cons, i3, h3]⟩
    rw [List.foldl_cons, i2, h2]
    by_cases hb : n.body = "" <;>
      simp [nonSkipped, List.filter_cons, emptyBody, hb] <;> omega

theorem loop_mock_maps (nbM : List (String × String))
    (ntm : List (String × List String)) (notes : List ParsedNote)
    (acc : Report × MockSupabaseClient) :
    ((notes.foldl (noteStep mockClient nbM ntm) acc).2).notebook_upserts =
      acc.2.notebook_upserts ∧
    ((notes.foldl (noteStep mockClient nbM ntm) acc).2).tag_upserts =
      acc.2.tag_upserts := by
  induction notes generalizing acc with
  | nil => exact ⟨rfl, rfl⟩
  | cons n rest ih =>
    obtain ⟨h1, h2⟩ := noteStep_mock_maps nbM ntm acc n
    obtain ⟨i1, i2⟩ := ih (noteStep mockClient nbM ntm acc n)
    exact ⟨by rw [List.foldl_cons, i1, h1], by rw [List.foldl_cons, i2, h2]⟩

-- ---------------------------------------------------------------------------
-- Shared lemmas: the mock's notebook and tag maps
-- ---------------------------------------------------------------------------

theorem keyLookup_nbAssign_not_mem (names : List String) (m : List (String × String))
    (idx : Nat) (t : String) (ht : t ∉ names) :
    keyLookup (nbAssign m idx names) t = keyLookup m t := by
  induction names generalizing m idx with
  | nil => rfl
  | cons name rest ih =>
    have hne : name ≠ t := fun h => ht (h ▸ List.mem_cons_self name rest)
    have ht' : t ∉ rest := fun h => ht (List.mem_cons_of_mem name h)
    rw [nbAssign, ih _ _ ht']
    clear ih ht
    induction m with
    | nil => simp [setKey, keyLookup, hne]
    | cons p mrest ihm =>
      obtain ⟨k, v⟩ := p
      by_cases hk : k = name <;> by_cases hkt : k = t <;>
        simp_all [setKey, keyLookup]

theorem nbAssign_idem (names : List String) (m : List (String × String)) (idx : Nat)
    (hnd : names.Nodup) :
    nbAssign (nbAssign m idx names) idx names = nbAssign m idx names := by
  induction names generalizing m idx with
  | nil => rfl
  | cons name rest ih =>
    obtain ⟨hni, hnd'⟩ := List.nodup_cons.mp hnd
    rw [nbAssign, nbAssign]
    have hl : keyLookup (nbAssign (setKey m name ("nb" ++ toString idx)) (idx + 1) rest) name
        = some ("nb" ++ toString idx) := by
      rw [keyLookup_nbAssign_not_mem rest _ _ _ hni, keyLookup_setKey]
    rw [setKey_of_lookup_self _ _ _ hl]
    exact ih _ _ hnd'

theorem notebookNames_nodup (notes : List ParsedNote) : (notebookNames notes).Nodup := by
  suffices h : ∀ acc : List String, acc.Nodup →
      (notes.foldl (fun acc note =>
        match note.notebook with
        | some nb => if nb ≠ "" ∧ nb ∉ acc then acc ++ [nb] else acc
        | none => acc) acc).Nodup by
    exact h [] List.nodup_nil
  induction notes with
  | nil => intro acc hacc; exact hacc
  | cons n rest ih =>
    intro acc hacc
    rcases hnb : n.notebook with _ | nb
    · simpa [hnb] using ih acc hacc
    · by_cases hc : nb ≠ "" ∧ nb ∉ acc
      · simp only [List.foldl_cons, hnb]
        rw [if_pos hc]
        refine ih _ (List.Nodup.append hacc (List.nodup_singleton nb) ?_)
        intro a ha hb
        rw [List.mem_singleton] at hb
        subst hb
        exact hc.2 ha
      · simpa [hnb, hc] using ih acc hacc

theorem tagAssign_keyMem_mono (ts : List String) (m : List (String × String))
    (t : String) (h : keyMem m t = true) : keyMem (tagAssign m ts) t = true := by
  induction ts generalizing m with
  | nil => exact h
  | cons a rest ih =>
    rw [tagAssign, List.foldl_cons]
    by_cases ha : keyMem m a
    · simpa [ha] using ih m h
    · have : keyMem (m ++ [(a, "uuid-tag-" ++ pyUnderscore a)]) t = true := by
        rw [keyMem_append_single]
        simp [h]
      simpa [ha] using ih _ this

theorem tagAssign_mem_of_elem (ts : List String) (m : List (String × String))
    (t : String) (h : t ∈ ts) : keyMem (tagAssign m ts) t = true := by
  induction ts generalizing m with
  | nil => cases h
  | cons a rest ih =>
    rcases List.mem_cons.mp h with h' | h'
    · subst h'
      rw [tagAssign, List.foldl_cons]
      by_cases ha : keyMem m t
      · simpa [ha] using tagAssign_keyMem_mono rest m t ha
      · have : keyMem (m ++ [(t, "uuid-tag-" ++ pyUnderscore t)]) t = true := by
          rw [keyMem_append_single]
          simp
        simpa [ha] using tagAssign_keyMem_mono rest _ t this
    · rw [tagAssign, List.foldl_cons]
      by_cases ha : keyMem m a <;> simpa [ha] using ih _ h'

theorem tagAssign_idem (ts : List String) (m : List (String × String))
    (h : ∀ t ∈ ts, keyMem m t = true) : tagAssign m ts = m := by
  induction ts with
  | nil => rfl
  | cons a rest ih =>
    rw [tagAssign, List.foldl_cons]
    have ha := h a (List.mem_cons_self a rest)
    rw [ha]
    simp only [if_true]
    exact ih (fun t ht => h t (List.mem_cons_of_mem a ht))

theorem tagAssign_length_fresh (ts : List String) (m : List (String × String))
    (hnd : ts.Nodup) (h : ∀ t ∈ ts, keyMem m t = false) :
    (tagAssign m ts).length = m.length + ts.length := by
  induction ts generalizing m with
  | nil => rfl
  | cons a rest ih =>
    obtain ⟨hni, hnd'⟩ := List.nodup_cons.mp hnd
    have ha := h a (List.mem_cons_self a rest)
    rw [tagAssign, List.foldl_cons, ha]
    simp only [Bool.false_eq_true, if_false]
    have hrest : ∀ t ∈ rest, keyMem (m ++ [(a, "uuid-tag-" ++ pyUnderscore a)]) t = false := by
      intro t ht
      rw [keyMem_append_single]
      have : a ≠ t := fun hat => hni (hat ▸ ht)
      simp [h t (List.mem_cons_of_mem a ht), this]
    have := ih _ hnd' hrest
    rw [tagAssign] at this
    rw [this]
    simp
    omega

theorem addTag_nodup (acc : List String) (tag : String) (h : acc.Nodup) :
    (addTag acc tag).Nodup := by
  unfold addTag
  dsimp only
  split_ifs with h1 h2 h3
  · exact h
  · exact h
  · exact h
  · refine List.Nodup.append h (List.nodup_singleton _) ?_
    intro a ha hb
    rw [List.mem_singleton] at hb
    subst hb
    exact h3 ha

theorem foldl_addTag_nodup (tags : List String) (acc : List String) (h : acc.Nodup) :
    (tags.foldl addTag acc).Nodup := by
  induction tags generalizing acc with
  | nil => exact h
  | cons t rest ih => exact ih _ (addTag_nodup acc t h)

theorem extract_all_tags_nodup (notes : List ParsedNote) :
    (extract_all_tags notes).Nodup := by
  suffices h : ∀ acc : List String, acc.Nodup →
      (notes.foldl (fun acc note => note.tags.foldl addTag acc) acc).Nodup by
    exact h [] List.nodup_nil
  induction notes with
  | nil => exact fun acc hacc => hacc
  | cons n rest ih =>
    intro acc hacc
    exact ih _ (foldl_addTag_nodup n.tags acc hacc)

-- ---------------------------------------------------------------------------
-- Concrete batches used by the claims
-- ---------------------------------------------------------------------------

/-- The note `{id:"n1", body:"x", notebook:"Work", tags:["t1","t2"]}`. -/
def specNote1 : ParsedNote :=
  { id := "n1", title := "", body := "x", notebook := some "Work",
    tags := ["t1", "t2"], metadata := [] }

/-- The note `{id:"n2", body:"y", notebook:"Personal", tags:["t2"]}`. -/
def specNote2 : ParsedNote :=
  { id := "n2", title := "", body := "y", notebook := some "Personal",
    tags := ["t2"], metadata := [] }

/-- The note `{id:"n3", body:"", notebook:"Work", tags:["skip"]}`. -/
def specNote3 : ParsedNote :=
  { id := "n3", title := "", body := "", notebook := some "Work",
    tags := ["skip"], metadata := [] }

/-- The three-note batch of the spec's concrete scenario. -/
def specBatch : List ParsedNote := [specNote1, specNote2, specNote3]

/-- C4 (counterexample): the concrete scenario's real-path run does not
produce the claimed report — `tags_inserted` is 3, not 2, because
`extract_all_tags` also extracts the tag "skip" of the empty-body note n3,
and the batch-level tag upsert happens before any note is skipped. -/
theorem C4_claimed_report_refuted :
    (mockRealRun specBatch MockSupabaseClient.init).1 ≠
      { notes_processed := 3, notes_inserted := 2, notes_updated := 0,
        notes_skipped := 1, tags_inserted := 2, relationships_created := 3,
        failures := [] } := by decide

/-- C4 (amended): the concrete scenario through the real path against a
fresh store yields notes_processed=3, notes_skipped=1, notes_inserted=2,
notes_updated=0, relationships_created=3 and no failures as claimed, but
tags_inserted=3: the tags are {t1, t2, skip}, since tag extraction also
covers the skipped empty-body note. -/
theorem C4_concrete_scenario :
    ingest_notes mockClient specBatch false MockSupabaseClient.init =
      .ok (mockRealRun specBatch MockSupabaseClient.init) ∧
    (mockRealRun specBatch MockSupabaseClient.init).1 =
      { notes_processed := 3, notes_inserted := 2, notes_updated := 0,
        notes_skipped := 1, tags_inserted := 3, relationships_created := 3,
        failures := [] } := by
  exact ⟨rfl, by decide⟩

-- ---------------------------------------------------------------------------
-- C6: the skip invariant
-- ---------------------------------------------------------------------------

/-- A note whose body is whitespace-only but not empty. -/
def wsNote : ParsedNote :=
  { id := "n1", title := "", body := " ", notebook := Option.none,
    tags := [], metadata := [] }

/-- C6 (counterexample): a whitespace-only body is truthy in Python, so the
note is NOT skipped — the real path processes it, leaves notes_skipped at
0 (the claim requires 1), and issues its persistence calls; the dry-run
path also counts it as inserted rather than skipped. -/
theorem C6_whitespace_not_skipped :
    (mockRealRun [wsNote] MockSupabaseClient.init).1.notes_skipped = 0 ∧
    (mockRealRun [wsNote] MockSupabaseClient.init).2.calls =
      [CallRec.upsert_notebooks, CallRec.upsert_tags [],
       CallRec.upsert_note_with_embedding "n1" Option.none,
       CallRec.upsert_note_tag_relationships "note-n1" []] ∧
    (mockDryRun [wsNote] MockSupabaseClient.init).1.notes_skipped = 0 := by
  refine ⟨by decide, by decide, by decide⟩

/-- C6 (amended): for every note whose body is the empty string, both paths
increment notes_skipped by exactly one for that note, leave the client
state untouched (no persistence call), and record nothing in failures;
notes whose body is merely whitespace are not skipped. -/
theorem C6_empty_body_skip (σ : Type) (c : PersistenceClient σ)
    (nbM : List (String × String)) (ntm : List (String × List String))
    (n : ParsedNote) (acc : Report × σ) (rest : List ParsedNote)
    (r : Report) (s : σ) (hb : n.body = "") :
    noteStep c nbM ntm acc n =
      ({ acc.1 with notes_processed := acc.1.notes_processed + 1,
                    notes_skipped := acc.1.notes_skipped + 1 }, acc.2) ∧
    dryLoop c (n :: rest) (r, s) =
      dryLoop c rest
        ({ r with notes_processed := r.notes_processed + 1,
                  notes_skipped := r.notes_skipped + 1 }, s) := by
  constructor
  · obtain ⟨r', s'⟩ := acc
    simp [noteStep, hb]
  · simp [dryLoop, hb]

/-- Witness for C6_empty_body_skip at a concrete empty-body note. -/
theorem C6_empty_body_skip_witness :
    noteStep mockClient [] [] (Report.init, MockSupabaseClient.init) specNote3 =
      ({ Report.init with notes_processed := 1, notes_skipped := 1 },
       MockSupabaseClient.init) ∧
    dryLoop mockClient [specNote3] (Report.init, MockSupabaseClient.init) =
      dryLoop mockClient []
        ({ Report.init with notes_processed := 1, notes_skipped := 1 },
         MockSupabaseClient.init) :=
  C6_empty_body_skip MockSupabaseClient mockClient [] [] specNote3
    (Report.init, MockSupabaseClient.init) [] Report.init MockSupabaseClient.init rfl

-- ---------------------------------------------------------------------------
-- C1: the real client's note-upsert contract
-- ---------------------------------------------------------------------------

/-- The row `upsert_note_with_embedding(title="T", body="x", id="n1")`
writes in real mode. -/
def c1Row : Row :=
  [("id", PyVal.str "n1"), ("title", PyVal.str "T"), ("body", PyVal.str "x"),
   ("embedding", PyVal.emb "x"), ("notebook_id", PyVal.none),
   ("created_time", PyVal.none), ("updated_time", PyVal.none),
   ("deleted_time", PyVal.none), ("user_created_time", PyVal.none),
   ("user_updated_time", PyVal.none), ("is_conflict", PyVal.none),
   ("source", PyVal.none), ("source_application", PyVal.none),
   ("markup_language", PyVal.none), ("resources", PyVal.emptyList)]

/-- The client state after that write against a fresh store. -/
def c1State : SupabaseClient :=
  { dry_run := false, hasClient := true,
    backend := { nextId := 0,
                 tables := [("notebooks", []), ("tags", []),
                            ("notes", [c1Row]), ("note_tags", [])] } }

/-- C1: the empty-body guard does hold in both modes (ValueError), but in
real mode `SupabaseClient.upsert_note_with_embedding` performs no prior
existence lookup and returns the upserted row list rather than the status
string "inserted"/"updated": the call against a fresh store (no prior row
for "n1") and the identical call against the store that now holds the row
return the very same value, so the return carries no insert/update
distinction.  This contradicts the Option B1 contract that the
orchestrator, the mock client, and the spec all document. -/
theorem C1_real_mode_returns_rows :
    SupabaseClient.freshReal.upsert_note_with_embedding
        "T" "" Option.none (some "n1") Option.none "notes" =
      .error "body must be provided" ∧
    SupabaseClient.dryMode.upsert_note_with_embedding
        "T" "" Option.none (some "n1") Option.none "notes" =
      .error "body must be provided" ∧
    SupabaseClient.freshReal.upsert_note_with_embedding
        "T" "x" Option.none (some "n1") Option.none "notes" =
      .ok ([c1Row], c1State) ∧
    c1State.upsert_note_with_embedding
        "T" "x" Option.none (some "n1") Option.none "notes" =
      .ok ([c1Row], c1State) := by
  refine ⟨rfl, rfl, by decide, by decide⟩

-- ---------------------------------------------------------------------------
-- C8: the real client's notebook upsert
-- ---------------------------------------------------------------------------

/-- C8: empty input yields the empty map with the client state unchanged
(no backend call), as claimed; but on the orchestrator's actual payloads —
`{"title": name}` dicts — the real-mode upsert declares conflict column
"name" and then reads `row["name"]` from the affected rows, which raises a
KeyError, so no title-keyed map is ever returned.  The conflict target in
the code is "name", not the notebook's title column. -/
theorem C8_notebook_conflict_mismatch :
    SupabaseClient.freshReal.upsert_notebooks [] =
      .ok ([], SupabaseClient.freshReal) ∧
    SupabaseClient.freshReal.upsert_notebooks
        [("Work", [("title", PyVal.str "Work")])] =
      .error "KeyError: name" := by
  refine ⟨rfl, by decide⟩

-- ---------------------------------------------------------------------------
-- C7: the real client's tag upsert
-- ---------------------------------------------------------------------------

/-- C7 (counterexample): `upsert_tags` performs no trimming and no
empty-dropping — the inputs " a", "a " and "" are written verbatim as three
distinct tag names; the trimmed name "a" is absent from the returned map. -/
theorem C7_no_trim_no_drop :
    ∃ m st, SupabaseClient.freshReal.upsert_tags [" a", "a ", ""] = .ok (m, st) ∧
      keysOf m = [" a", "a ", ""] ∧
      keyLookup m "a" = Option.none ∧
      keyLookup m "" = some "row-2" := by
  refine ⟨_, _, rfl, by decide, by decide, by decide⟩

-- ---------------------------------------------------------------------------
-- Shared lemmas: tag upserts against the modelled store
-- ---------------------------------------------------------------------------

/-- The stored rows produced by freshly inserting the given tag names,
ids counting up from `k`. -/
def tagRows (k : Nat) : List String → List Row
  | [] => []
  | t :: rest =>
    [("name", PyVal.str t), ("id", PyVal.str ("row-" ++ toString k))] :: tagRows (k + 1) rest

/-- The store-assigned id of the first occurrence of `t` in a table laid
out as `tagRows k ts`. -/
def tagIdIn (k : Nat) : List String → String → String
  | [], _ => ""
  | t' :: rest, t => if t' = t then "row-" ++ toString k else tagIdIn (k + 1) rest t

/-- The stored row of tag `t` in a table laid out as `tagRows k ts`. -/
def tagRowFor (k : Nat) (ts : List String) (t : String) : Row :=
  [("name", PyVal.str t), ("id", PyVal.str (tagIdIn k ts t))]

/-- No row of `done` carries tag name `t`. -/
def noName (done : List Row) (t : String) : Prop :=
  ∀ r ∈ done, keyLookup r "name" ≠ some (PyVal.str t)

theorem pyDedup_nodup (tags : List String) : (pyDedup tags).Nodup := by
  suffices h : ∀ acc : List String, acc.Nodup →
      (tags.foldl (fun acc t => if t ∈ acc then acc else acc ++ [t]) acc).Nodup by
    exact h [] List.nodup_nil
  induction tags with
  | nil => exact fun acc hacc => hacc
  | cons t rest ih =>
    intro acc hacc
    by_cases ht : t ∈ acc
    · simpa [ht] using ih acc hacc
    · simp only [List.foldl_cons, ht, if_false]
      refine ih _ (List.Nodup.append hacc (List.nodup_singleton t) ?_)
      intro a ha hb
      rw [List.mem_singleton] at hb
      subst hb
      exact ht ha

theorem pyDedup_mem (tags : List String) (t : String) :
    t ∈ pyDedup tags ↔ t ∈ tags := by
  suffices h : ∀ acc : List String,
      (t ∈ tags.foldl (fun acc t => if t ∈ acc then acc else acc ++ [t]) acc ↔
        t ∈ acc ∨ t ∈ tags) by
    simpa using h []
  induction tags with
  | nil => intro acc; simp
  | cons a rest ih =>
    intro acc
    by_cases ha : a ∈ acc
    · rw [List.foldl_cons, if_pos ha, ih acc]
      constructor
      · rintro (h | h)
        · exact Or.inl h
        · exact Or.inr (List.mem_cons_of_mem a h)
      · rintro (h | h)
        · exact Or.inl h
        · rcases List.mem_cons.mp h with h | h
          · exact Or.inl (h ▸ ha)
          · exact Or.inr h
    · rw [List.foldl_cons, if_neg ha, ih _]
      simp only [List.mem_append, List.mem_singleton, List.mem_cons]
      tauto

theorem rowConflicts_mkNameRow_false (r : Row) (t : String)
    (hnr : keyLookup r "name" ≠ some (PyVal.str t)) :
    rowConflicts "name" (mkNameRow t) r = false := by
  have h1 : keyLookup (mkNameRow t) "name" = some (PyVal.str t) := by
    simp [mkNameRow, keyLookup]
  unfold rowConflicts
  rw [h1]
  rcases hl : keyLookup r "name" with _ | w
  · rfl
  · by_cases hw : PyVal.str t = w
    · rw [← hw] at hl
      exact absurd hl hnr
    · simp [hw]

theorem find_none_of_noName (done : List Row) (t : String) (h : noName done t) :
    done.find? (fun r => rowConflicts "name" (mkNameRow t) r) = Option.none := by
  apply List.find?_eq_none.mpr
  intro r hr
  rw [rowConflicts_mkNameRow_false r t (h r hr)]
  simp

/-- Inserting pairwise-distinct, not-yet-present tag names into the tags
table appends freshly-id'd rows in order and returns them. -/
theorem tags_upsert_fresh (ts : List String) (b : Backend) (done A : List Row)
    (hnd : ts.Nodup) (htab : keyLookup b.tables "tags" = some done)
    (hfresh : ∀ t ∈ ts, noName done t) :
    (ts.map mkNameRow).foldl (Backend.upsertStep "tags" "name") (A, b) =
      (A ++ tagRows b.nextId ts,
       { nextId := b.nextId + ts.length,
         tables := setKey b.tables "tags" (done ++ tagRows b.nextId ts) }) := by
  induction ts generalizing b done A with
  | nil =>
    simp only [List.map_nil, List.foldl_nil, tagRows, List.append_nil, List.length_nil,
      Nat.add_zero]
    rw [setKey_of_lookup_self _ _ _ htab]
  | cons t rest ih =>
    obtain ⟨hni, hnd'⟩ := List.nodup_cons.mp hnd
    have hstep : Backend.upsertStep "tags" "name" (A, b) (mkNameRow t) =
        (A ++ [[("name", PyVal.str t), ("id", PyVal.str ("row-" ++ toString b.nextId))]],
         { b with nextId := b.nextId + 1,
                  tables := setKey b.tables "tags"
                    (done ++ [[("name", PyVal.str t), ("id", PyVal.str ("row-" ++ toString b.nextId))]]) }) := by
      unfold Backend.upsertStep Backend.upsertOne
      rw [htab]
      simp only [Option.getD_some]
      rw [find_none_of_noName done t (hfresh t (List.mem_cons_self t rest))]
      simp [mkNameRow, keyLookup]
    rw [List.map_cons, List.foldl_cons, hstep]
    have hfresh' : ∀ u ∈ rest,
        noName (done ++ [[("name", PyVal.str t), ("id", PyVal.str ("row-" ++ toString b.nextId))]]) u := by
      intro u hu r hr
      rcases List.mem_append.mp hr with h | h
      · exact hfresh u (List.mem_cons_of_mem t hu) r h
      · rw [List.mem_singleton] at h
        subst h
        simp only [keyLookup, if_pos rfl]
        intro hcontra
        have : t = u := by
          injection hcontra with h'
          injection h'
        exact hni (this ▸ hu)
    have ih' := ih { b with nextId := b.nextId + 1,
                            tables := setKey b.tables "tags"
                              (done ++ [[("name", PyVal.str t), ("id", PyVal.str ("row-" ++ toString b.nextId))]]) }
      (done ++ [[("name", PyVal.str t), ("id", PyVal.str ("row-" ++ toString b.nextId))]])
      (A ++ [[("name", PyVal.str t), ("id", PyVal.str ("row-" ++ toString b.nextId))]])
      hnd' (by rw [keyLookup_setKey]) hfresh'
    rw [ih']
    simp only [tagRows, setKey_setKey, List.append_assoc, List.singleton_append,
      List.length_cons]
    have harith : b.nextId + 1 + rest.length = b.nextId + (rest.length + 1) := by omega
    rw [harith]

theorem find_tagRows (full : List String) (k : Nat) (t : String) (ht : t ∈ full) :
    (tagRows k full).find? (fun r => rowConflicts "name" (mkNameRow t) r) =
      some (tagRowFor k full t) := by
  induction full generalizing k with
  | nil => cases ht
  | cons u rest ih =>
    by_cases hu : u = t
    · subst hu
      have hc : rowConflicts "name" (mkNameRow u)
          [("name", PyVal.str u), ("id", PyVal.str ("row-" ++ toString k))] = true := by
        simp [rowConflicts, mkNameRow, keyLookup]
      simp only [tagRows, List.find?_cons, hc, tagRowFor, tagIdIn, if_pos rfl]
      simp
    · have hc : rowConflicts "name" (mkNameRow t)
          [("name", PyVal.str u), ("id", PyVal.str ("row-" ++ toString k))] = false := by
        apply rowConflicts_mkNameRow_false
        simp only [keyLookup, if_pos rfl]
        intro hcontra
        injection hcontra with h'
        injection h' with heq2
        exact hu heq2
      have ht' : t ∈ rest := by
        rcases List.mem_cons.mp ht with h | h
        · exact absurd h.symm hu
        · exact h
      simp only [tagRows, List.find?_cons, hc, tagRowFor, tagIdIn, if_neg hu]
      have := ih (k + 1) ht'
      rw [this, tagRowFor]

theorem map_beq_self (l : List Row) (a : Row) :
    l.map (fun r => if r == a then a else r) = l := by
  induction l with
  | nil => rfl
  | cons x rest ih =>
    rw [List.map_cons, ih]
    by_cases hx : x = a
    · subst hx
      rw [if_pos (by simp)]
    · rw [if_neg (by simpa using hx)]

/-- Re-upserting tag names that are all already stored touches nothing and
returns each tag's stored row. -/
theorem tags_upsert_existing (ts full : List String) (b : Backend) (A : List Row)
    (j : Nat) (htab : keyLookup b.tables "tags" = some (tagRows j full))
    (hsub : ∀ t ∈ ts, t ∈ full) :
    (ts.map mkNameRow).foldl (Backend.upsertStep "tags" "name") (A, b) =
      (A ++ ts.map (tagRowFor j full), b) := by
  induction ts generalizing A with
  | nil => simp
  | cons t rest ih =>
    have hmerged : setKey (mkNameRow t) "id" (PyVal.str (tagIdIn j full t)) =
        tagRowFor j full t := by
      simp [mkNameRow, tagRowFor, setKey]
    have hid : keyLookup (tagRowFor j full t) "id" =
        some (PyVal.str (tagIdIn j full t)) := by
      simp [tagRowFor, keyLookup]
    have hstep : Backend.upsertStep "tags" "name" (A, b) (mkNameRow t) =
        (A ++ [tagRowFor j full t], b) := by
      unfold Backend.upsertStep Backend.upsertOne
      rw [htab]
      simp only [Option.getD_some,
        find_tagRows full j t (hsub t (List.mem_cons_self t rest)), hid, hmerged,
        map_beq_self, setKey_of_lookup_self _ _ _ htab]
    rw [List.map_cons, List.foldl_cons, hstep,
      ih (A ++ [tagRowFor j full t]) (fun u hu => hsub u (List.mem_cons_of_mem t hu))]
    simp

theorem tagRows_eq_map (ts : List String) (k : Nat) (hnd : ts.Nodup) :
    tagRows k ts = ts.map (tagRowFor k ts) := by
  induction ts generalizing k with
  | nil => rfl
  | cons t rest ih =>
    obtain ⟨hni, hnd'⟩ := List.nodup_cons.mp hnd
    rw [tagRows, List.map_cons]
    have hhead : tagRowFor k (t :: rest) t =
        [("name", PyVal.str t), ("id", PyVal.str ("row-" ++ toString k))] := by
      simp [tagRowFor, tagIdIn]
    have htail : List.map (tagRowFor k (t :: rest)) rest =
        List.map (tagRowFor (k + 1) rest) rest := by
      apply List.map_congr_left
      intro u hu
      have hut : ¬ (t = u) := fun h => hni (h ▸ hu)
      simp [tagRowFor, tagIdIn, hut]
    rw [hhead, htail, ih (k + 1) hnd']

theorem rowsToNameIdMap_map (ts : List String) (idf : String → String)
    (m : List (String × String)) (hnd : ts.Nodup)
    (hm : ∀ t ∈ ts, keyMem m t = false) :
    rowsToNameIdMap "name" m
        (ts.map (fun t => [("name", PyVal.str t), ("id", PyVal.str (idf t))])) =
      .ok (m ++ ts.map (fun t => (t, idf t))) := by
  induction ts generalizing m with
  | nil => simp [rowsToNameIdMap]
  | cons t rest ih =>
    obtain ⟨hni, hnd'⟩ := List.nodup_cons.mp hnd
    have hname : rowStrVal [("name", PyVal.str t), ("id", PyVal.str (idf t))] "name" =
        .ok t := by simp [rowStrVal, keyLookup]
    have hid : rowStrVal [("name", PyVal.str t), ("id", PyVal.str (idf t))] "id" =
        .ok (idf t) := by simp [rowStrVal, keyLookup]
    rw [List.map_cons, rowsToNameIdMap]
    simp only [hname, hid]
    have hset : setKey m t (idf t) = m ++ [(t, idf t)] :=
      setKey_of_not_mem m t (idf t) (hm t (List.mem_cons_self t rest))
    have hm' : ∀ u ∈ rest, keyMem (m ++ [(t, idf t)]) u = false := by
      intro u hu
      rw [keyMem_append_single]
      have : ¬ (t = u) := fun h => hni (h ▸ hu)
      simp [hm u (List.mem_cons_of_mem t hu), this]
    rw [hset, ih _ hnd' hm']
    simp

theorem keysOf_map_pair (ts : List String) (idf : String → String) :
    keysOf (ts.map (fun t => (t, idf t))) = ts := by
  induction ts with
  | nil => rfl
  | cons t rest ih => simp [keysOf] at ih ⊢; exact ih

theorem map_tagRowFor (ts l : List String) (k : Nat) :
    List.map (tagRowFor k ts) l =
      List.map (fun t => [("name", PyVal.str t), ("id", PyVal.str (tagIdIn k ts t))]) l := by
  simp [tagRowFor]

/-- The full fresh-store run of `upsert_tags`, computed in closed form. -/
theorem upsert_tags_fresh_run (tags : List String) (hz : ¬ tags = []) :
    SupabaseClient.freshReal.upsert_tags tags =
      .ok ((pyDedup tags).map (fun t => (t, tagIdIn 0 (pyDedup tags) t)),
           { dry_run := false, hasClient := true,
             backend := { nextId := (pyDedup tags).length,
                          tables := setKey Backend.empty.tables "tags"
                            (tagRows 0 (pyDedup tags)) } }) := by
  have hnd := pyDedup_nodup tags
  have htab : keyLookup Backend.empty.tables "tags" = some [] := by decide
  have hfold := tags_upsert_fresh (pyDedup tags) Backend.empty [] [] hnd htab
    (fun t _ r hr => absurd hr (List.not_mem_nil r))
  have hrows := rowsToNameIdMap_map (pyDedup tags) (tagIdIn 0 (pyDedup tags)) []
    hnd (fun t _ => rfl)
  simp only [SupabaseClient.upsert_tags, hz, if_false, SupabaseClient.freshReal,
    Backend.upsert]
  rw [hfold]
  simp only [List.nil_append, show Backend.empty.nextId = 0 from rfl]
  rw [tagRows_eq_map _ _ hnd, map_tagRowFor]
  rw [hrows]
  simp

/-- Re-running `upsert_tags` with the same input against the state produced
by the fresh run is a fixpoint: the same map comes back and nothing is
written. -/
theorem upsert_tags_second_run (tags : List String) (hz : ¬ tags = []) :
    SupabaseClient.upsert_tags
        { dry_run := false, hasClient := true,
          backend := { nextId := (pyDedup tags).length,
                       tables := setKey Backend.empty.tables "tags"
                         (tagRows 0 (pyDedup tags)) } } tags =
      .ok ((pyDedup tags).map (fun t => (t, tagIdIn 0 (pyDedup tags) t)),
           { dry_run := false, hasClient := true,
             backend := { nextId := (pyDedup tags).length,
                          tables := setKey Backend.empty.tables "tags"
                            (tagRows 0 (pyDedup tags)) } }) := by
  have hnd := pyDedup_nodup tags
  have htab : keyLookup (setKey Backend.empty.tables "tags" (tagRows 0 (pyDedup tags)))
      "tags" = some (tagRows 0 (pyDedup tags)) := keyLookup_setKey _ _ _
  have hfold := tags_upsert_existing (pyDedup tags) (pyDedup tags)
    { nextId := (pyDedup tags).length,
      tables := setKey Backend.empty.tables "tags" (tagRows 0 (pyDedup tags)) }
    [] 0 htab (fun t ht => ht)
  have hrows := rowsToNameIdMap_map (pyDedup tags) (tagIdIn 0 (pyDedup tags)) []
    hnd (fun t _ => rfl)
  simp only [SupabaseClient.upsert_tags, hz, if_false, Backend.upsert]
  rw [hfold]
  simp only [List.nil_append]
  rw [map_tagRowFor]
  rw [hrows]
  simp

/-- C7 (amended): `upsert_tags` deduplicates (the returned map's keys are
exactly the deduplicated input names, written verbatim — no trimming, no
empty-dropping), and the write is idempotent on the tag's unique name:
re-running the call with the same names against the resulting store returns
the same name-to-id map and leaves the store unchanged. -/
theorem C7_tags_dedup_idempotent (tags : List String)
    (m : List (String × String)) (st1 : SupabaseClient)
    (h : SupabaseClient.freshReal.upsert_tags tags = .ok (m, st1)) :
    keysOf m = pyDedup tags ∧ SupabaseClient.upsert_tags st1 tags = .ok (m, st1) := by
  by_cases hz : tags = []
  · subst hz
    have h0 : SupabaseClient.freshReal.upsert_tags [] =
        .ok ([], SupabaseClient.freshReal) := rfl
    rw [h0] at h
    obtain ⟨h1, h2⟩ := Prod.mk.injEq .. ▸ (Except.ok.inj h)
    subst h1
    subst h2
    exact ⟨rfl, rfl⟩
  · rw [upsert_tags_fresh_run tags hz] at h
    obtain ⟨h1, h2⟩ := Prod.mk.injEq .. ▸ (Except.ok.inj h)
    subst h1
    subst h2
    refine ⟨keysOf_map_pair _ _, upsert_tags_second_run tags hz⟩

/-- Witness for C7_tags_dedup_idempotent at a concrete input. -/
theorem C7_tags_dedup_idempotent_witness :
    keysOf [("a", "row-0"), ("b", "row-1")] = pyDedup ["a", "b", "a"] ∧
    SupabaseClient.upsert_tags
        { dry_run := false, hasClient := true,
          backend := { nextId := 2,
                       tables := [("notebooks", []),
                                  ("tags", [[("name", PyVal.str "a"), ("id", PyVal.str "row-0")],
                                            [("name", PyVal.str "b"), ("id", PyVal.str "row-1")]]),
                                  ("notes", []), ("note_tags", [])] } } ["a", "b", "a"] =
      .ok ([("a", "row-0"), ("b", "row-1")],
           { dry_run := false, hasClient := true,
             backend := { nextId := 2,
                          tables := [("notebooks", []),
                                     ("tags", [[("name", PyVal.str "a"), ("id", PyVal.str "row-0")],
                                               [("name", PyVal.str "b"), ("id", PyVal.str "row-1")]]),
                                     ("notes", []), ("note_tags", [])] } }) :=
  C7_tags_dedup_idempotent ["a", "b", "a"] [("a", "row-0"), ("b", "row-1")]
    { dry_run := false, hasClient := true,
      backend := { nextId := 2,
                   tables := [("notebooks", []),
                              ("tags", [[("name", PyVal.str "a"), ("id", PyVal.str "row-0")],
                                        [("name", PyVal.str "b"), ("id", PyVal.str "row-1")]]),
                              ("notes", []), ("note_tags", [])] } }
    (by decide)

-- ---------------------------------------------------------------------------
-- C3: the ordering invariant
-- ---------------------------------------------------------------------------

/-- The call sequence the ordering contract predicts for a batch run from a
fresh mock store: one notebooks call, one tags call, then one
(note upsert, relationship upsert) pair per non-skipped note in input
order. -/
def expectedTrace (notes : List ParsedNote) : List CallRec :=
  let nbM := (MockSupabaseClient.init.upsert_notebooks (notebookNames notes)).1
  let s1 := (MockSupabaseClient.init.upsert_notebooks (notebookNames notes)).2
  let tagM := (s1.upsert_tags (extract_all_tags notes)).1
  let ntm := map_note_tags_to_ids notes tagM
  CallRec.upsert_notebooks :: CallRec.upsert_tags (extract_all_tags notes) ::
    (nonSkipped notes).flatMap (tracePair nbM ntm)

/-- C3: for every batch, the real path against a fresh recording store
observes exactly one `upsert_notebooks` call, then one `upsert_tags` call,
then for each non-skipped note in input order one
`upsert_note_with_embedding` call immediately followed by the note's
`upsert_note_tag_relationships` call, with nothing else interleaved. -/
theorem C3_call_ordering (notes : List ParsedNote) :
    ingest_notes_real mockClient notes MockSupabaseClient.init =
      .ok (mockRealRun notes MockSupabaseClient.init) ∧
    (mockRealRun notes MockSupabaseClient.init).2.calls = expectedTrace notes := by
  refine ⟨rfl, ?_⟩
  unfold mockRealRun expectedTrace
  rw [loop_mock_calls]
  simp [MockSupabaseClient.upsert_notebooks, MockSupabaseClient.upsert_tags,
    MockSupabaseClient.init]

-- ---------------------------------------------------------------------------
-- C9: dry-run / real parity
-- ---------------------------------------------------------------------------

theorem mockDryStep_processed (acc : Report × MockSupabaseClient) (n : ParsedNote) :
    (mockDryStep acc n).1.notes_processed = acc.1.notes_processed + 1 := by
  obtain ⟨r, s⟩ := acc
  by_cases hb : n.body = "" <;> simp [mockDryStep, hb]

theorem mockDryStep_skipped (acc : Report × MockSupabaseClient) (n : ParsedNote) :
    (mockDryStep acc n).1.notes_skipped =
      acc.1.notes_skipped + (if n.body = "" then 1 else 0) := by
  obtain ⟨r, s⟩ := acc
  by_cases hb : n.body = "" <;> simp [mockDryStep, hb]

theorem dryFold_processed (notes : List ParsedNote) (acc : Report × MockSupabaseClient) :
    (notes.foldl mockDryStep acc).1.notes_processed =
      acc.1.notes_processed + notes.length := by
  induction notes generalizing acc with
  | nil => simp
  | cons n rest ih =>
    simp only [List.foldl_cons, ih, mockDryStep_processed, List.length_cons]
    omega

theorem dryFold_skipped (notes : List ParsedNote) (acc : Report × MockSupabaseClient) :
    (notes.foldl mockDryStep acc).1.notes_skipped =
      acc.1.notes_skipped + (notes.filter emptyBody).length := by
  induction notes generalizing acc with
  | nil => simp
  | cons n rest ih =>
    by_cases hb : n.body = "" <;>
      simp [List.foldl_cons, ih, mockDryStep_skipped, hb, List.filter_cons, emptyBody] <;>
      omega

theorem relFold_preserves (notes : List ParsedNote) (r : Report) :
    (notes.foldl (fun r note =>
        { r with relationships_created := r.relationships_created + note.tags.length }) r).notes_processed
      = r.notes_processed ∧
    (notes.foldl (fun r note =>
        { r with relationships_created := r.relationships_created + note.tags.length }) r).notes_skipped
      = r.notes_skipped ∧
    (notes.foldl (fun r note =>
        { r with relationships_created := r.relationships_created + note.tags.length }) r).tags_inserted
      = r.tags_inserted := by
  induction notes generalizing r with
  | nil => exact ⟨rfl, rfl, rfl⟩
  | cons n rest ih =>
    obtain ⟨i1, i2, i3⟩ := ih { r with relationships_created := r.relationships_created + n.tags.length }
    exact ⟨i1, i2, i3⟩

theorem noteStep_tags_inserted (c : PersistenceClient σ) (nbM : List (String × String))
    (ntm : List (String × List String)) (acc : Report × σ) (n : ParsedNote) :
    (noteStep c nbM ntm acc n).1.tags_inserted = acc.1.tags_inserted := by
  obtain ⟨r, s⟩ := acc
  by_cases hb : n.body = ""
  · simp [noteStep, hb]
  · simp only [noteStep, hb, if_false]
    rcases hg : c.generate n.body with e | embedding
    · simp [hg, Report.addFailure]
    · simp only [hg]
      rcases hu : c.upsert_note_with_embedding
          { id := n.id, title := n.title, body := n.body, metadata := n.metadata,
            notebook_id := resolveNotebookId nbM n, embedding := embedding } s with e | ⟨result, s1⟩
      · simp [hu, Report.addFailure]
      · simp only [hu]
        rcases hr : c.upsert_note_tag_relationships n.id ((keyLookup ntm n.id).getD []) s1 with e | s2
        · simp only [hr, Report.addFailure, Report.countUpsert]
          split_ifs <;> simp
        · simp only [hr, Report.countUpsert]
          split_ifs <;> simp

theorem loop_tags_inserted (c : PersistenceClient σ) (nbM : List (String × String))
    (ntm : List (String × List String)) (notes : List ParsedNote) (acc : Report × σ) :
    ((notes.foldl (noteStep c nbM ntm) acc).1).tags_inserted = acc.1.tags_inserted := by
  induction notes generalizing acc with
  | nil => rfl
  | cons n rest ih => simp only [List.foldl_cons, ih, noteStep_tags_inserted]

theorem mock_tag_map_length (notes : List ParsedNote) (st : MockSupabaseClient)
    (h : st.tag_upserts = []) :
    (st.upsert_tags (extract_all_tags notes)).1.length =
      (extract_all_tags notes).length := by
  have := tagAssign_length_fresh (extract_all_tags notes) []
    (extract_all_tags_nodup notes) (fun t _ => rfl)
  simp [MockSupabaseClient.upsert_tags, h, this]

/-- `mockRealRun` in projection form (definitional repackaging of its
pair-destructuring lets). -/
theorem mockRealRun_eq (notes : List ParsedNote) (st : MockSupabaseClient) :
    mockRealRun notes st =
      notes.foldl
        (noteStep mockClient (st.upsert_notebooks (notebookNames notes)).1
          (map_note_tags_to_ids notes
            (((st.upsert_notebooks (notebookNames notes)).2).upsert_tags
              (extract_all_tags notes)).1))
        ({ Report.init with
             tags_inserted :=
               (((st.upsert_notebooks (notebookNames notes)).2).upsert_tags
                 (extract_all_tags notes)).1.length },
         (((st.upsert_notebooks (notebookNames notes)).2).upsert_tags
           (extract_all_tags notes)).2) := rfl

/-- `mockDryRun`'s report in projection form. -/
theorem mockDryRun_fst (notes : List ParsedNote) (st : MockSupabaseClient) :
    (mockDryRun notes st).1 =
      notes.foldl
        (fun r note =>
          { r with relationships_created := r.relationships_created + note.tags.length })
        { (notes.foldl mockDryStep (Report.init, st)).1 with
            tags_inserted := (extract_all_tags notes).length } := rfl

/-- C9: for every batch, the dry-run report and the real-path report
against a fresh store agree on notes_processed, notes_skipped and
tags_inserted. -/
theorem C9_dry_real_parity (notes : List ParsedNote) :
    ingest_notes_dry mockClient notes MockSupabaseClient.init =
      .ok (mockDryRun notes MockSupabaseClient.init) ∧
    (mockDryRun notes MockSupabaseClient.init).1.notes_processed =
      (mockRealRun notes MockSupabaseClient.init).1.notes_processed ∧
    (mockDryRun notes MockSupabaseClient.init).1.notes_skipped =
      (mockRealRun notes MockSupabaseClient.init).1.notes_skipped ∧
    (mockDryRun notes MockSupabaseClient.init).1.tags_inserted =
      (mockRealRun notes MockSupabaseClient.init).1.tags_inserted := by
  refine ⟨ingest_dry_mock_ok notes MockSupabaseClient.init, ?_, ?_, ?_⟩
  · rw [mockDryRun_fst, mockRealRun_eq, (relFold_preserves _ _).1, loop_processed]
    simp [dryFold_processed]
  · rw [mockDryRun_fst, mockRealRun_eq, (relFold_preserves _ _).2.1, loop_mock_skipped]
    simp [dryFold_skipped]
  · rw [mockDryRun_fst, mockRealRun_eq, (relFold_preserves _ _).2.2, loop_tags_inserted]
    simp only []
    rw [mock_tag_map_length notes _ ?_]
    · simp [MockSupabaseClient.upsert_notebooks, MockSupabaseClient.init]

-- ---------------------------------------------------------------------------
-- C2: second-run behavior
-- ---------------------------------------------------------------------------

theorem upsert_notebooks_fields (st : MockSupabaseClient) (names : List String) :
    (st.upsert_notebooks names).1 = nbAssign st.notebook_upserts 1 names ∧
    (st.upsert_notebooks names).2.notebook_upserts = nbAssign st.notebook_upserts 1 names ∧
    (st.upsert_notebooks names).2.tag_upserts = st.tag_upserts ∧
    (st.upsert_notebooks names).2.existing_ids = st.existing_ids :=
  ⟨rfl, rfl, rfl, rfl⟩

theorem upsert_tags_fields (st : MockSupabaseClient) (ts : List String) :
    (st.upsert_tags ts).1 = tagAssign st.tag_upserts ts ∧
    (st.upsert_tags ts).2.tag_upserts = tagAssign st.tag_upserts ts ∧
    (st.upsert_tags ts).2.notebook_upserts = st.notebook_upserts ∧
    (st.upsert_tags ts).2.existing_ids = st.existing_ids :=
  ⟨rfl, rfl, rfl, rfl⟩

/-- The store state after one full real-path run from fresh: the notebook
and tag maps of the first run, and every non-skipped note id present. -/
theorem run1_state (notes : List ParsedNote) :
    (mockRealRun notes MockSupabaseClient.init).2.notebook_upserts =
      nbAssign [] 1 (notebookNames notes) ∧
    (mockRealRun notes MockSupabaseClient.init).2.tag_upserts =
      tagAssign [] (extract_all_tags notes) ∧
    (∀ n ∈ notes, ¬ n.body = "" →
      n.id ∈ (mockRealRun notes MockSupabaseClient.init).2.existing_ids) := by
  rw [mockRealRun_eq]
  obtain ⟨m1, m2⟩ := loop_mock_maps
    ((MockSupabaseClient.init.upsert_notebooks (notebookNames notes)).1)
    (map_note_tags_to_ids notes
      (((MockSupabaseClient.init.upsert_notebooks (notebookNames notes)).2).upsert_tags
        (extract_all_tags notes)).1) notes
    ({ Report.init with
         tags_inserted :=
           (((MockSupabaseClient.init.upsert_notebooks (notebookNames notes)).2).upsert_tags
             (extract_all_tags notes)).1.length },
     (((MockSupabaseClient.init.upsert_notebooks (notebookNames notes)).2).upsert_tags
       (extract_all_tags notes)).2)
  refine ⟨?_, ?_, ?_⟩
  · rw [m1]
    rfl
  · rw [m2]
    rfl
  · intro n hn hb
    exact loop_mock_collects_ids _ _ notes _ n hn hb

/-- C2 (counterexample): a batch containing the same note id twice breaks
the claimed relation — the first run reports 1 inserted and 1 updated, the
second run reports 2 updated, which is not the first run's notes_inserted. -/
def dupNoteA : ParsedNote :=
  { id := "a", title := "", body := "x", notebook := Option.none, tags := [], metadata := [] }

def dupNoteB : ParsedNote :=
  { id := "a", title := "", body := "y", notebook := Option.none, tags := [], metadata := [] }

def dupBatch : List ParsedNote := [dupNoteA, dupNoteB]

theorem C2_duplicate_ids_refute :
    (mockRealRun dupBatch MockSupabaseClient.init).1.notes_inserted = 1 ∧
    (mockRealRun dupBatch (mockRealRun dupBatch MockSupabaseClient.init).2).1.notes_updated = 2 ∧
    (mockRealRun dupBatch (mockRealRun dupBatch MockSupabaseClient.init).2).1.notes_updated ≠
      (mockRealRun dupBatch MockSupabaseClient.init).1.notes_inserted := by
  refine ⟨by decide, by decide, by decide⟩

/-- C2 (amended): running the same batch twice from a fresh store, the
second run reports notes_inserted = 0 and
notes_updated = (first run's notes_inserted + notes_updated)
(equal to the first run's notes_inserted whenever the batch has no
duplicate ids), and the notebook and tag name-to-id maps returned in the
second run equal those of the first run. -/
theorem C2_second_run (notes : List ParsedNote) :
    ingest_notes_real mockClient notes (mockRealRun notes MockSupabaseClient.init).2 =
      .ok (mockRealRun notes (mockRealRun notes MockSupabaseClient.init).2) ∧
    (mockRealRun notes (mockRealRun notes MockSupabaseClient.init).2).1.notes_updated =
      (mockRealRun notes MockSupabaseClient.init).1.notes_inserted +
        (mockRealRun notes MockSupabaseClient.init).1.notes_updated ∧
    (mockRealRun notes (mockRealRun notes MockSupabaseClient.init).2).1.notes_inserted = 0 ∧
    ((mockRealRun notes MockSupabaseClient.init).2.upsert_notebooks
        (notebookNames notes)).1 =
      (MockSupabaseClient.init.upsert_notebooks (notebookNames notes)).1 ∧
    (((mockRealRun notes MockSupabaseClient.init).2.upsert_notebooks
        (notebookNames notes)).2.upsert_tags (extract_all_tags notes)).1 =
      ((MockSupabaseClient.init.upsert_notebooks (notebookNames notes)).2.upsert_tags
        (extract_all_tags notes)).1 := by
  obtain ⟨hnb1, htg1, hids⟩ := run1_state notes
  have hnbmap :
      ((mockRealRun notes MockSupabaseClient.init).2.upsert_notebooks
        (notebookNames notes)).1 =
      (MockSupabaseClient.init.upsert_notebooks (notebookNames notes)).1 := by
    rw [(upsert_notebooks_fields _ _).1, (upsert_notebooks_fields _ _).1, hnb1]
    rw [nbAssign_idem _ _ _ (notebookNames_nodup notes)]
    rfl
  have htgmap :
      (((mockRealRun notes MockSupabaseClient.init).2.upsert_notebooks
        (notebookNames notes)).2.upsert_tags (extract_all_tags notes)).1 =
      ((MockSupabaseClient.init.upsert_notebooks (notebookNames notes)).2.upsert_tags
        (extract_all_tags notes)).1 := by
    rw [(upsert_tags_fields _ _).1, (upsert_tags_fields _ _).1,
      (upsert_notebooks_fields _ _).2.2.1, (upsert_notebooks_fields _ _).2.2.1, htg1]
    rw [tagAssign_idem _ _ (fun t ht => tagAssign_mem_of_elem _ _ t ht)]
    rfl
  refine ⟨rfl, ?_, ?_, hnbmap, htgmap⟩
  · -- updated₂ = inserted₁ + updated₁
    have hins1 := loop_mock_ins_upd
      ((MockSupabaseClient.init.upsert_notebooks (notebookNames notes)).1)
      (map_note_tags_to_ids notes
        (((MockSupabaseClient.init.upsert_notebooks (notebookNames notes)).2).upsert_tags
          (extract_all_tags notes)).1) notes
      ({ Report.init with
           tags_inserted :=
             (((MockSupabaseClient.init.upsert_notebooks (notebookNames notes)).2).upsert_tags
               (extract_all_tags notes)).1.length },
       (((MockSupabaseClient.init.upsert_notebooks (notebookNames notes)).2).upsert_tags
         (extract_all_tags notes)).2)
    have hupd2 := loop_mock_updated
      (((mockRealRun notes MockSupabaseClient.init).2).upsert_notebooks (notebookNames notes)).1
      (map_note_tags_to_ids notes
        ((((mockRealRun notes MockSupabaseClient.init).2).upsert_notebooks
          (notebookNames notes)).2.upsert_tags (extract_all_tags notes)).1) notes
      ({ Report.init with
           tags_inserted :=
             ((((mockRealRun notes MockSupabaseClient.init).2).upsert_notebooks
               (notebookNames notes)).2.upsert_tags (extract_all_tags notes)).1.length },
       ((((mockRealRun notes MockSupabaseClient.init).2).upsert_notebooks
         (notebookNames notes)).2.upsert_tags (extract_all_tags notes)).2)
      (by intro n hn hb
          exact hids n hn hb)
    rw [mockRealRun_eq notes (mockRealRun notes MockSupabaseClient.init).2,
      mockRealRun_eq notes MockSupabaseClient.init]
    rw [mockRealRun_eq notes MockSupabaseClient.init] at hupd2
    simp [Report.init] at hins1 hupd2 ⊢
    omega
  · -- inserted₂ = 0
    have hupd2 := loop_mock_updated
      (((mockRealRun notes MockSupabaseClient.init).2).upsert_notebooks (notebookNames notes)).1
      (map_note_tags_to_ids notes
        ((((mockRealRun notes MockSupabaseClient.init).2).upsert_notebooks
          (notebookNames notes)).2.upsert_tags (extract_all_tags notes)).1) notes
      ({ Report.init with
           tags_inserted :=
             ((((mockRealRun notes MockSupabaseClient.init).2).upsert_notebooks
               (notebookNames notes)).2.upsert_tags (extract_all_tags notes)).1.length },
       ((((mockRealRun notes MockSupabaseClient.init).2).upsert_notebooks
         (notebookNames notes)).2.upsert_tags (extract_all_tags notes)).2)
      (by intro n hn hb
          exact hids n hn hb)
    rw [mockRealRun_eq notes (mockRealRun notes MockSupabaseClient.init).2]
    simpa [Report.init] using hupd2.1

-- ---------------------------------------------------------------------------
-- C5: failure isolation
-- ---------------------------------------------------------------------------

theorem noteStep_of_error (c : PersistenceClient σ) (nbM : List (String × String))
    (ntm : List (String × List String)) (acc : Report × σ) (n : ParsedNote)
    (e : String) (h : noteStepError c nbM ntm n acc.2 = some e) :
    (noteStep c nbM ntm acc n).1.failures = acc.1.failures ++ [(n.id, e)] := by
  obtain ⟨r, s⟩ := acc
  by_cases hb : n.body = ""
  · simp [noteStepError, hb] at h
  · simp only [noteStepError, hb, if_false] at h
    simp only [noteStep, hb, if_false]
    rcases hg : c.generate n.body with e' | embedding
    · simp only [hg] at h
      injection h with h2
      subst h2
      simp [hg, Report.addFailure]
    · simp only [hg] at h
      rcases hu : c.upsert_note_with_embedding
          { id := n.id, title := n.title, body := n.body, metadata := n.metadata,
            notebook_id := resolveNotebookId nbM n, embedding := embedding } s with e' | ⟨result, s1⟩
      · simp only [hu] at h
        injection h with h2
        subst h2
        simp [hu, Report.addFailure]
      · simp only [hu] at h
        rcases hr : c.upsert_note_tag_relationships n.id ((keyLookup ntm n.id).getD []) s1 with e' | s2
        · simp only [hr] at h
          injection h with h2
          subst h2
          simp only [hu, hr, Report.addFailure, Report.countUpsert]
          split_ifs <;> simp
        · simp only [hr] at h
          cases h

/-- C5: if processing a note raises (during embedding generation, the note
upsert, or the relationship upsert), the exception is caught and recorded
as a `{id, error}` failure entry, the loop continues with the remaining
notes, and every note of the batch is still processed. -/
theorem C5_failure_isolation (σ : Type) (c : PersistenceClient σ)
    (nbM : List (String × String)) (ntm : List (String × List String))
    (pre post : List ParsedNote) (n : ParsedNote) (r0 : Report) (s0 : σ) (e : String)
    (herr : noteStepError c nbM ntm n
      ((pre.foldl (noteStep c nbM ntm) (r0, s0)).2) = some e) :
    (noteStep c nbM ntm (pre.foldl (noteStep c nbM ntm) (r0, s0)) n).1.failures =
      (pre.foldl (noteStep c nbM ntm) (r0, s0)).1.failures ++ [(n.id, e)] ∧
    (pre ++ n :: post).foldl (noteStep c nbM ntm) (r0, s0) =
      post.foldl (noteStep c nbM ntm)
        (noteStep c nbM ntm (pre.foldl (noteStep c nbM ntm) (r0, s0)) n) ∧
    ((pre ++ n :: post).foldl (noteStep c nbM ntm) (r0, s0)).1.notes_processed =
      r0.notes_processed + pre.length + 1 + post.length := by
  refine ⟨noteStep_of_error c nbM ntm _ n e herr, ?_, ?_⟩
  · rw [List.foldl_append, List.foldl_cons]
  · rw [List.foldl_append, List.foldl_cons, loop_processed, noteStep_processed,
      loop_processed]

/-- A client whose embedding provider always raises. -/
def genFailingClient : PersistenceClient Unit :=
  { upsert_notebooks := fun _ s => .ok ([], s),
    upsert_tags := fun _ s => .ok ([], s),
    generate := fun _ => .error "embedding backend down",
    upsert_note_with_embedding := fun _ s => .ok (.statusStr "inserted", s),
    upsert_note_tag_relationships := fun _ _ s => .ok s }

/-- Witness for C5_failure_isolation: a failing first note is recorded and
the second note is still processed. -/
theorem C5_failure_isolation_witness :
    (noteStep genFailingClient [] []
        (([] : List ParsedNote).foldl (noteStep genFailingClient [] [])
          (Report.init, ())) specNote1).1.failures =
      (([] : List ParsedNote).foldl (noteStep genFailingClient [] [])
        (Report.init, ())).1.failures ++ [("n1", "embedding backend down")] ∧
    (([] ++ specNote1 :: [specNote2]).foldl (noteStep genFailingClient [] [])
        (Report.init, ())) =
      [specNote2].foldl (noteStep genFailingClient [] [])
        (noteStep genFailingClient [] []
          (([] : List ParsedNote).foldl (noteStep genFailingClient [] [])
            (Report.init, ())) specNote1) ∧
    ((([] ++ specNote1 :: [specNote2]).foldl (noteStep genFailingClient [] [])
        (Report.init, ()))).1.notes_processed =
      Report.init.notes_processed + ([] : List ParsedNote).length + 1 +
        [specNote2].length :=
  C5_failure_isolation Unit genFailingClient [] [] [] [specNote2] specNote1
    Report.init () "embedding backend down" (by decide)

-- ---------------------------------------------------------------------------
-- C10: per-note accounting inequality
-- ---------------------------------------------------------------------------

/-- A client whose relationship upsert always raises (after a successful
note upsert). -/
def relsFailingClient : PersistenceClient Unit :=
  { upsert_notebooks := fun _ s => .ok ([], s),
    upsert_tags := fun _ s => .ok ([], s),
    generate := fun b => .ok ⟨b⟩,
    upsert_note_with_embedding := fun _ s => .ok (.statusStr "inserted", s),
    upsert_note_tag_relationships := fun _ _ _ => .error "relationship write failed" }

/-- C10: in the real path every processed note accounts for at least one of
notes_skipped, notes_inserted, notes_updated, or a failure entry, so
notes_processed is bounded by their sum for every client and batch; and
the bound can be strict — with a client whose relationship upsert raises
after a successful note upsert, the note is counted both as inserted and
as a failure. -/
theorem C10_processed_bound :
    (∀ (σ : Type) (c : PersistenceClient σ) (notes : List ParsedNote) (s : σ)
        (r : Report) (st : σ),
      ingest_notes_real c notes s = .ok (r, st) →
      r.notes_processed ≤
        r.notes_skipped + r.notes_inserted + r.notes_updated + r.failures.length) ∧
    ingest_notes_real relsFailingClient [dupNoteA] () =
      .ok ({ notes_processed := 1, notes_inserted := 1, notes_updated := 0,
             notes_skipped := 0, tags_inserted := 0, relationships_created := 0,
             failures := [("a", "relationship write failed")] }, ()) ∧
    (1 : Nat) < 0 + 1 + 0 + 1 := by
  refine ⟨?_, by decide, by decide⟩
  intro σ c notes s r st h
  unfold ingest_notes_real at h
  rcases hnb : c.upsert_notebooks (notebookNames notes) s with e | ⟨nbM, s1⟩
  · simp only [hnb] at h
    exact Except.noConfusion h
  · simp only [hnb] at h
    rcases htg : c.upsert_tags (extract_all_tags notes) s1 with e | ⟨tagM, s2⟩
    · simp only [htg] at h
      exact Except.noConfusion h
    · simp only [htg, Except.ok.injEq] at h
      have hr := congrArg Prod.fst h
      have hp := loop_processed c nbM (map_note_tags_to_ids notes tagM) notes
        ({ Report.init with tags_inserted := tagM.length }, s2)
      have ho := loop_outcome c nbM (map_note_tags_to_ids notes tagM) notes
        ({ Report.init with tags_inserted := tagM.length }, s2)
      rw [hr] at hp ho
      simp [Report.init] at hp ho
      omega

/-- Witness for C10_processed_bound at a concrete mock-backed run. -/
theorem C10_processed_bound_witness :
    (mockRealRun specBatch MockSupabaseClient.init).1.notes_processed ≤
      (mockRealRun specBatch MockSupabaseClient.init).1.notes_skipped +
        (mockRealRun specBatch MockSupabaseClient.init).1.notes_inserted +
        (mockRealRun specBatch MockSupabaseClient.init).1.notes_updated +
        (mockRealRun specBatch MockSupabaseClient.init).1.failures.length :=
  C10_processed_bound.1 MockSupabaseClient mockClient specBatch
    MockSupabaseClient.init (mockRealRun specBatch MockSupabaseClient.init).1
    (mockRealRun specBatch MockSupabaseClient.init).2 rfl
